import Mathlib

/-!
Verification of the report builder (pkg/gtr/builder.go).

A shallow embedding of `ReportBuilder` and its operations, followed by theorems
about them.

Modelling conventions.
* Go `int`, `int64` and `time.Duration` are modelled by `Int`.  Identifiers only
  grow by one per creation event, so the 64-bit bound is out of reach of every
  event sequence considered here.
* `float64` payloads are only stored, never computed with; they are modelled by
  their IEEE-754 bit pattern, a `Nat`.
* A Go `map[int]T` is an association list; `mapLookup` is the comma-ok read,
  `mapStore` the assignment `m[k] = v` and `mapLen` is `len(m)`.
* Methods with a pointer receiver become functions returning the new builder.
* The diagnostic line printed by `parseResult` on an unrecognised string goes to
  standard output and is not part of the builder state; it is not modelled.
-/

namespace Gtr

/-- Modelled from the spec: the declaration of `Result` is not in builder.go.
The spec (section 3) gives the enum Pass, Fail, Skip, Unknown and calls the value
of a test that has not ended "absent/unset"; `Unset` stands for the zero value
that the composite literal `Test{Name: name}` leaves in the field. No theorem
below relies on `Unset` being different from `Unknown`. -/
inductive Result where
  | Unset
  | Pass
  | Fail
  | Skip
  | Unknown
deriving DecidableEq

/-- Modelled from the spec: the declaration of `Test` is not in builder.go; the
fields are the ones the spec lists and the builder reads and writes. -/
structure Test where
  Name : String
  Result : Gtr.Result
  Duration : Int
  Output : List String
deriving DecidableEq

/-- Modelled from the spec: the declaration of `Benchmark` is not in builder.go;
the fields are the ones the composite literal in `Benchmark` fills in. -/
structure Benchmark where
  Name : String
  Result : Gtr.Result
  Iterations : Int
  NsPerOp : Nat
  MBPerSec : Nat
  BytesPerOp : Int
  AllocsPerOp : Int
deriving DecidableEq

/-- Modelled from the spec: the declaration of `Package` is not in builder.go;
the fields are the ones the composite literal in `CreatePackage` fills in. -/
structure Package where
  Name : String
  Duration : Int
  Tests : List Test
  Benchmarks : List Benchmark
  Output : List String
deriving DecidableEq

/-- Modelled from the spec: the declaration of `Report` is not in builder.go; it
is the ordered sequence of packages. -/
structure Report where
  Packages : List Package
deriving DecidableEq

/-- The zero value of `Test`, what a read of a missing map key yields. -/
def Test.zero : Test := ⟨"", Result.Unset, 0, []⟩

/-- The zero value of `Benchmark`. -/
def Benchmark.zero : Benchmark := ⟨"", Result.Unset, 0, 0, 0, 0, 0⟩

/-- The comma-ok read `v, ok := m[k]`. -/
def mapLookup {α : Type} : List (Int × α) → Int → Option α
  | [], _ => none
  | (k, v) :: m, i => if k = i then some v else mapLookup m i

/-- Removal of the entry for key `i`, if any. -/
def mapErase {α : Type} : List (Int × α) → Int → List (Int × α)
  | [], _ => []
  | (k, v) :: m, i => if k = i then mapErase m i else (k, v) :: mapErase m i

/-- The assignment `m[k] = v`: any older entry for `k` is replaced. -/
def mapStore {α : Type} (m : List (Int × α)) (k : Int) (v : α) : List (Int × α) :=
  (k, v) :: mapErase m k

/-- The builtin `len(m)`. -/
def mapLen {α : Type} (m : List (Int × α)) : Nat := m.length

/-- The plain read `b.tests[id]`, zero value on a missing key. -/
def testAt (tests : List (Int × Test)) (id : Int) : Test :=
  (mapLookup tests id).getD Test.zero

/-- The plain read `b.benchmarks[id]`, zero value on a missing key. -/
def benchmarkAt (benchmarks : List (Int × Benchmark)) (id : Int) : Benchmark :=
  (mapLookup benchmarks id).getD Benchmark.zero

/-- The struct `ReportBuilder`. -/
structure ReportBuilder where
  packages : List Package
  tests : List (Int × Test)
  benchmarks : List (Int × Benchmark)
  nextId : Int
  lastId : Int
  output : List String
deriving DecidableEq

/-- `NewReportBuilder()`. -/
def NewReportBuilder : ReportBuilder :=
  { packages := [], tests := [], benchmarks := [], nextId := 1, lastId := 0, output := [] }

/-- `parseResult(r)`. -/
def parseResult (r : String) : Result :=
  if r = "PASS" then Result.Pass
  else if r = "FAIL" then Result.Fail
  else if r = "SKIP" then Result.Skip
  else Result.Unknown

/-- The loop `for id := n; id >= 0; id--` of `findTest`, with its `return -1`. -/
def scanTests (tests : List (Int × Test)) (name : String) : Nat → Int
  | 0 => if (testAt tests 0).Name = name then 0 else -1
  | n + 1 =>
    if (testAt tests ((n : Int) + 1)).Name = name then (n : Int) + 1
    else scanTests tests name n

/-- The test `t, ok := b.tests[b.lastId]; ok && t.Name == name` of `findTest`. -/
def lastIsTest (b : ReportBuilder) (name : String) : Bool :=
  match mapLookup b.tests b.lastId with
  | some t => decide (t.Name = name)
  | none => false

/-- `b.findTest(name)`. -/
def ReportBuilder.findTest (b : ReportBuilder) (name : String) : Int :=
  if lastIsTest b name then b.lastId
  else scanTests b.tests name (mapLen b.tests)

/-- `b.CreateTest(name)`. -/
def ReportBuilder.CreateTest (b : ReportBuilder) (name : String) : ReportBuilder :=
  let id := b.nextId
  { b with
    lastId := id
    nextId := b.nextId + 1
    tests := mapStore b.tests id ⟨name, Result.Unset, 0, []⟩ }

/-- `b.EndTest(name, result, duration)`. -/
def ReportBuilder.EndTest (b : ReportBuilder) (name result : String) (duration : Int) :
    ReportBuilder :=
  let id := b.findTest name
  let t := testAt b.tests id
  { b with
    lastId := id
    tests := mapStore b.tests id { t with Result := parseResult result, Duration := duration } }

/-- `b.Benchmark(name, iterations, nsPerOp, mbPerSec, bytesPerOp, allocsPerOp)`. -/
def ReportBuilder.Benchmark (b : ReportBuilder) (name : String) (iterations : Int)
    (nsPerOp mbPerSec : Nat) (bytesPerOp allocsPerOp : Int) : ReportBuilder :=
  let id := b.nextId
  { b with
    lastId := id
    nextId := b.nextId + 1
    benchmarks := mapStore b.benchmarks id
      ⟨name, Result.Pass, iterations, nsPerOp, mbPerSec, bytesPerOp, allocsPerOp⟩ }

/-- The identifiers visited by `for id := 1; id < nextId; id++`, in order. -/
def idRange (nextId : Int) : List Int :=
  List.map (fun (i : Nat) => (i : Int) + 1) (List.range (nextId - 1).toNat)

/-- One iteration of the loop body of `CreatePackage`. -/
def snapshotStep (b : ReportBuilder) (acc : List Test × List Benchmark) (id : Int) :
    List Test × List Benchmark :=
  let tests := match mapLookup b.tests id with
    | some t => acc.1 ++ [t]
    | none => acc.1
  let benchmarks := match mapLookup b.benchmarks id with
    | some bm => acc.2 ++ [bm]
    | none => acc.2
  (tests, benchmarks)

/-- The whole loop of `CreatePackage`, from the two nil slices. -/
def snapshot (b : ReportBuilder) : List Test × List Benchmark :=
  (idRange b.nextId).foldl (snapshotStep b) ([], [])

/-- `b.CreatePackage(name, duration)`. -/
def ReportBuilder.CreatePackage (b : ReportBuilder) (name : String) (duration : Int) :
    ReportBuilder :=
  let snap := snapshot b
  { packages := b.packages ++ [⟨name, duration, snap.1, snap.2, b.output⟩]
    tests := []
    benchmarks := []
    output := []
    nextId := 1
    lastId := 0 }

/-- `b.AppendOutput(line)`. -/
def ReportBuilder.AppendOutput (b : ReportBuilder) (line : String) : ReportBuilder :=
  if b.lastId ≤ 0 then { b with output := b.output ++ [line] }
  else
    let t := testAt b.tests b.lastId
    { b with tests := mapStore b.tests b.lastId { t with Output := t.Output ++ [line] } }

/-- `b.flush()`. -/
def ReportBuilder.flush (b : ReportBuilder) : ReportBuilder :=
  if mapLen b.tests > 0 then b.CreatePackage "unknown" 0 else b

/-- `b.Build()`: the returned report together with the builder it leaves. -/
def ReportBuilder.Build (b : ReportBuilder) : Report × ReportBuilder :=
  let b1 := b.flush
  (⟨b1.packages⟩, b1)

/-- The calls a client can make on a builder. -/
inductive Event where
  | createTest (name : String)
  | endTest (name result : String) (duration : Int)
  | benchmark (name : String) (iterations : Int) (nsPerOp mbPerSec : Nat)
      (bytesPerOp allocsPerOp : Int)
  | appendOutput (line : String)
  | createPackage (name : String) (duration : Int)
  | build
deriving DecidableEq

/-- The effect of one call on the builder. -/
def ReportBuilder.step (b : ReportBuilder) : Event → ReportBuilder
  | Event.createTest n => b.CreateTest n
  | Event.endTest n r d => b.EndTest n r d
  | Event.benchmark n i ns mb by_ al => b.Benchmark n i ns mb by_ al
  | Event.appendOutput l => b.AppendOutput l
  | Event.createPackage n d => b.CreatePackage n d
  | Event.build => b.Build.2

/-- The effect of a sequence of calls, first call first. -/
def ReportBuilder.run (b : ReportBuilder) (es : List Event) : ReportBuilder :=
  es.foldl ReportBuilder.step b

/-- A state that some sequence of calls produces from `NewReportBuilder()`. -/
def Reachable (b : ReportBuilder) : Prop :=
  ∃ es : List Event, NewReportBuilder.run es = b

/-- The current window is fresh: as constructed, or as `CreatePackage` leaves it. -/
def FreshWindow (b : ReportBuilder) : Prop :=
  b.tests = [] ∧ b.benchmarks = [] ∧ b.nextId = 1 ∧ b.lastId = 0 ∧ b.output = []

instance (b : ReportBuilder) : Decidable (FreshWindow b) := by
  unfold FreshWindow; infer_instance

/-- Calls that work on the current window only (no flush). -/
def Event.isWindow : Event → Bool
  | Event.createTest _ => true
  | Event.endTest _ _ _ => true
  | Event.benchmark _ _ _ _ _ _ => true
  | Event.appendOutput _ => true
  | _ => false

/-- Window calls other than `AppendOutput`, every test name non-empty. -/
def Event.isNamedTestOrBench : Event → Bool
  | Event.createTest n => decide (n ≠ "")
  | Event.endTest n _ _ => decide (n ≠ "")
  | Event.benchmark _ _ _ _ _ _ => true
  | _ => false

/-- The name a `CreateTest` call passes, nothing for any other call. -/
def Event.createdName : Event → Option String
  | Event.createTest n => some n
  | _ => none

/-- The record a `Benchmark` call stores, nothing for any other call. -/
def Event.recorded : Event → Option Benchmark
  | Event.benchmark n i ns mb by_ al => some ⟨n, Result.Pass, i, ns, mb, by_, al⟩
  | _ => none

/-- The invariant behind the ordering of tests: identifiers at or above `nextId`
are unused and the snapshot of the tests carries the names `names`. -/
def TestsInv (b : ReportBuilder) (names : List String) : Prop :=
  1 ≤ b.nextId ∧ (∀ k, b.nextId ≤ k → mapLookup b.tests k = none) ∧
    ((idRange b.nextId).filterMap (mapLookup b.tests)).map Test.Name = names

/-- The invariant behind the ordering of benchmarks: identifiers at or above
`nextId` are unused and the snapshot of the benchmarks is `recs`. -/
def BenchInv (b : ReportBuilder) (recs : List Benchmark) : Prop :=
  1 ≤ b.nextId ∧ (∀ k, b.nextId ≤ k → mapLookup b.benchmarks k = none) ∧
    (idRange b.nextId).filterMap (mapLookup b.benchmarks) = recs

/-- The builder `b` with the packages `ps` flushed before its own. -/
def withFlushed (ps : List Package) (b : ReportBuilder) : ReportBuilder :=
  { b with packages := ps ++ b.packages }

/-- Window calls of every kind, every test name non-empty. -/
def Event.isNamedWindow : Event → Bool
  | Event.createTest n => decide (n ≠ "")
  | Event.endTest n _ _ => decide (n ≠ "")
  | Event.benchmark _ _ _ _ _ _ => true
  | Event.appendOutput _ => true
  | _ => false

/-- The line an `AppendOutput` call passes, nothing for any other call. -/
def Event.outputLine : Event → Option String
  | Event.appendOutput l => some l
  | _ => none

/-- All output lines held by a package: those of its tests in order, then the
package-level ones. -/
def Package.allOutput (pkg : Package) : List String :=
  (pkg.Tests.map Test.Output).flatten ++ pkg.Output

/-- The output lines stored under the identifiers `ids`, in that order. -/
def outputsOver (tests : List (Int × Test)) (ids : List Int) : List String :=
  (ids.map (fun id => (testAt tests id).Output)).flatten

/-- The invariant behind the accounting of output lines: identifiers at or above
`nextId` are unused, the tracker is below `nextId`, and the lines held by the
window are a rearrangement of `lines`. -/
def LinesInv (b : ReportBuilder) (lines : List String) : Prop :=
  1 ≤ b.nextId ∧ (∀ k, b.nextId ≤ k → mapLookup b.tests k = none) ∧ b.lastId < b.nextId ∧
    List.Perm (outputsOver b.tests (idRange b.nextId) ++ b.output) lines

/-- Calls `CreateTest`, `EndTest` and `AppendOutput` only, every test name
non-empty. -/
def Event.isNamedTestOrOutput : Event → Bool
  | Event.createTest n => decide (n ≠ "")
  | Event.endTest n _ _ => decide (n ≠ "")
  | Event.appendOutput _ => true
  | _ => false

/-- The keys of a map. -/
def mapKeys {α : Type} (m : List (Int × α)) : List Int := m.map Prod.fst

/-- The invariant behind name resolution in a window without benchmarks: keys are
distinct, the scan of `findTest` starts at or above every identifier in use, the
entries are the named tests under 1..nextId-1 and possibly a nameless entry under
-1, and the tracked test is the newest of its name. -/
def DupInv (b : ReportBuilder) : Prop :=
  1 ≤ b.nextId ∧ (mapKeys b.tests).Nodup ∧ b.nextId ≤ (mapLen b.tests : Int) + 1 ∧
    (∀ k t, mapLookup b.tests k = some t →
      (k = -1 ∧ t.Name = "") ∨ (1 ≤ k ∧ k < b.nextId ∧ t.Name ≠ "")) ∧
    (0 < b.lastId → ∃ t, mapLookup b.tests b.lastId = some t) ∧
    (∀ t, mapLookup b.tests b.lastId = some t →
      ∀ k u, mapLookup b.tests k = some u → u.Name = t.Name → k ≤ b.lastId)

/-! ## Lemmas on the map model -/

theorem mapLookup_erase_ne {α : Type} (m : List (Int × α)) (k j : Int) (h : j ≠ k) :
    mapLookup (mapErase m k) j = mapLookup m j := by
  induction m with
  | nil => rfl
  | cons e m ih =>
    obtain ⟨k1, v⟩ := e
    by_cases hk : k1 = k
    · have hne : ¬ k1 = j := fun h1 => h (h1.symm.trans hk)
      have hne2 : ¬ k = j := fun h2 => h h2.symm
      simp [mapErase, mapLookup, hk, hne2, ih]
    · by_cases hj : k1 = j
      · have hne2 : ¬ j = k := h
        subst hj
        simp [mapErase, mapLookup, hne2]
      · simp [mapErase, mapLookup, hk, hj, ih]

theorem mapLookup_store_same {α : Type} (m : List (Int × α)) (k : Int) (v : α) :
    mapLookup (mapStore m k v) k = some v := by
  simp [mapStore, mapLookup]

theorem mapLookup_store_ne {α : Type} (m : List (Int × α)) (k j : Int) (v : α) (h : j ≠ k) :
    mapLookup (mapStore m k v) j = mapLookup m j := by
  have hne : ¬ k = j := fun h1 => h h1.symm
  simp [mapStore, mapLookup, hne, mapLookup_erase_ne m k j h]

theorem mapLen_store_pos {α : Type} (m : List (Int × α)) (k : Int) (v : α) :
    0 < mapLen (mapStore m k v) := by
  simp [mapLen, mapStore]

/-! ## Lemmas on the snapshot loop -/

theorem foldl_snapshotStep (b : ReportBuilder) (ids : List Int)
    (acc : List Test × List Benchmark) :
    ids.foldl (snapshotStep b) acc
      = (acc.1 ++ ids.filterMap (mapLookup b.tests),
         acc.2 ++ ids.filterMap (mapLookup b.benchmarks)) := by
  induction ids generalizing acc with
  | nil => simp
  | cons i ids ih =>
    rw [List.foldl_cons, ih]
    cases ht : mapLookup b.tests i <;> cases hb : mapLookup b.benchmarks i <;>
      simp [snapshotStep, List.filterMap_cons, ht, hb]

theorem snapshot_eq (b : ReportBuilder) :
    snapshot b = ((idRange b.nextId).filterMap (mapLookup b.tests),
                  (idRange b.nextId).filterMap (mapLookup b.benchmarks)) := by
  simp [snapshot, foldl_snapshotStep]

theorem idRange_succ (n : Int) (h : 1 ≤ n) : idRange (n + 1) = idRange n ++ [n] := by
  have e : (n + 1 - 1).toNat = (n - 1).toNat + 1 := by omega
  have e2 : (((n - 1).toNat : Int)) + 1 = n := by omega
  unfold idRange
  rw [e, List.range_succ, List.map_append, List.map_singleton, e2]

theorem mem_idRange (n k : Int) : k ∈ idRange n ↔ 1 ≤ k ∧ k < n := by
  simp only [idRange, List.mem_map, List.mem_range]
  constructor
  · rintro ⟨i, hi, rfl⟩
    constructor <;> omega
  · rintro ⟨h1, h2⟩
    refine ⟨(k - 1).toNat, ?_, ?_⟩
    · omega
    · show (((k - 1).toNat : Int)) + 1 = k
      omega

theorem idRange_one : idRange 1 = [] := by
  simp [idRange]

/-! ## Lemmas on sequences of calls -/

theorem run_nil (b : ReportBuilder) : b.run [] = b := rfl

theorem run_cons (b : ReportBuilder) (e : Event) (es : List Event) :
    b.run (e :: es) = (b.step e).run es := rfl

theorem run_append (b : ReportBuilder) (es1 es2 : List Event) :
    b.run (es1 ++ es2) = (b.run es1).run es2 := by
  simp [ReportBuilder.run, List.foldl_append]

theorem run_snoc (b : ReportBuilder) (es : List Event) (e : Event) :
    b.run (es ++ [e]) = (b.run es).step e := by
  simp [ReportBuilder.run, List.foldl_append]

/-! ## Lemmas on name resolution -/

theorem testAt_of_lookup (tests : List (Int × Test)) (k : Int) (t : Test)
    (h : mapLookup tests k = some t) : testAt tests k = t := by
  simp [testAt, h]

theorem lookup_of_testAt_name (tests : List (Int × Test)) (k : Int) (name : String)
    (hn : name ≠ "") (h : (testAt tests k).Name = name) :
    ∃ t, mapLookup tests k = some t ∧ t.Name = name := by
  cases hl : mapLookup tests k with
  | none =>
    rw [testAt, hl] at h
    exact absurd h.symm hn
  | some t =>
    rw [testAt, hl] at h
    exact ⟨t, rfl, h⟩

theorem scanTests_spec (tests : List (Int × Test)) (name : String) (n : Nat) :
    scanTests tests name n = -1 ∨ (testAt tests (scanTests tests name n)).Name = name := by
  induction n with
  | zero =>
    by_cases h : (testAt tests 0).Name = name
    · right; simp [scanTests, h]
    · left; simp [scanTests, h]
  | succ n ih =>
    by_cases h : (testAt tests ((n : Int) + 1)).Name = name
    · right; simp [scanTests, h]
    · simpa [scanTests, h] using ih

theorem findTest_spec (b : ReportBuilder) (name : String) (hn : name ≠ "") :
    b.findTest name = -1 ∨
      ∃ t, mapLookup b.tests (b.findTest name) = some t ∧ t.Name = name := by
  unfold ReportBuilder.findTest
  by_cases h : lastIsTest b name = true
  · right
    rw [if_pos h]
    unfold lastIsTest at h
    cases hl : mapLookup b.tests b.lastId with
    | none => simp [hl] at h
    | some t =>
      rw [hl] at h
      exact ⟨t, rfl, by simpa using h⟩
  · rw [if_neg h]
    rcases scanTests_spec b.tests name (mapLen b.tests) with h1 | h1
    · left; exact h1
    · right; exact lookup_of_testAt_name _ _ _ hn h1

/-! ## Lemmas on the window invariants -/

theorem filterMap_agree {α β : Type} (f g : α → Option β) (l : List α)
    (h : ∀ i ∈ l, f i = g i) : l.filterMap f = l.filterMap g := by
  induction l with
  | nil => rfl
  | cons i l ih =>
    have hi : f i = g i := h i (List.mem_cons_self i l)
    have hl : ∀ j ∈ l, f j = g j := fun j hj => h j (List.mem_cons_of_mem i hj)
    rw [List.filterMap_cons, List.filterMap_cons, hi, ih hl]

theorem names_store_same_name (m : List (Int × Test)) (k : Int) (t u : Test)
    (h : mapLookup m k = some t) (hu : u.Name = t.Name) (ids : List Int) :
    (ids.filterMap (mapLookup (mapStore m k u))).map Test.Name
      = (ids.filterMap (mapLookup m)).map Test.Name := by
  induction ids with
  | nil => rfl
  | cons i ids ih =>
    by_cases hik : i = k
    · subst hik
      simp [List.filterMap_cons, mapLookup_store_same, h, hu, ih]
    · rw [List.filterMap_cons, List.filterMap_cons, mapLookup_store_ne m k i u hik]
      cases mapLookup m i <;> simp [ih]

theorem TestsInv_step (b : ReportBuilder) (names : List String) (e : Event)
    (he : e.isNamedTestOrBench = true) (h : TestsInv b names) :
    TestsInv (b.step e) (names ++ e.createdName.toList) := by
  obtain ⟨h1, h2, h3⟩ := h
  cases e with
  | createTest n =>
    refine ⟨?_, ?_, ?_⟩
    · show 1 ≤ b.nextId + 1
      omega
    · intro k hk
      have hk1 : b.nextId + 1 ≤ k := hk
      show mapLookup (mapStore b.tests b.nextId _) k = none
      rw [mapLookup_store_ne _ _ _ _ (by omega)]
      exact h2 k (by omega)
    · show ((idRange (b.nextId + 1)).filterMap
        (mapLookup (mapStore b.tests b.nextId ⟨n, Result.Unset, 0, []⟩))).map Test.Name = _
      rw [idRange_succ _ h1, List.filterMap_append, List.map_append]
      have e1 : (idRange b.nextId).filterMap
          (mapLookup (mapStore b.tests b.nextId ⟨n, Result.Unset, 0, []⟩))
          = (idRange b.nextId).filterMap (mapLookup b.tests) := by
        apply filterMap_agree
        intro i hi
        have := (mem_idRange _ _).1 hi
        exact mapLookup_store_ne _ _ _ _ (by omega)
      rw [e1, h3]
      simp [mapLookup_store_same, Event.createdName]
  | endTest n r d =>
    have hn : n ≠ "" := by simpa [Event.isNamedTestOrBench] using he
    have hstep : b.step (Event.endTest n r d) = b.EndTest n r d := rfl
    rw [hstep]
    rcases findTest_spec b n hn with hf | ⟨t, hl, ht⟩
    · refine ⟨h1, ?_, ?_⟩
      · intro k hk
        have hk1 : b.nextId ≤ k := hk
        show mapLookup (mapStore b.tests (b.findTest n) _) k = none
        rw [hf, mapLookup_store_ne _ _ _ _ (by omega)]
        exact h2 k hk1
      · show ((idRange b.nextId).filterMap
          (mapLookup (mapStore b.tests (b.findTest n) _))).map Test.Name = _
        rw [hf]
        have e1 : ∀ u : Test, (idRange b.nextId).filterMap (mapLookup (mapStore b.tests (-1) u))
            = (idRange b.nextId).filterMap (mapLookup b.tests) := by
          intro u
          apply filterMap_agree
          intro i hi
          have := (mem_idRange _ _).1 hi
          exact mapLookup_store_ne _ _ _ _ (by omega)
        rw [e1, h3]
        simp [Event.createdName]
    · refine ⟨h1, ?_, ?_⟩
      · intro k hk
        have hk1 : b.nextId ≤ k := hk
        show mapLookup (mapStore b.tests (b.findTest n) _) k = none
        have hne : k ≠ b.findTest n := by
          intro hEq
          rw [← hEq, h2 k hk1] at hl
          exact Option.noConfusion hl
        rw [mapLookup_store_ne _ _ _ _ hne]
        exact h2 k hk1
      · show ((idRange b.nextId).filterMap
          (mapLookup (mapStore b.tests (b.findTest n) _))).map Test.Name = _
        rw [names_store_same_name b.tests (b.findTest n) t _ hl
          (by rw [testAt_of_lookup _ _ _ hl]), h3]
        simp [Event.createdName]
  | benchmark n i ns mb by_ al =>
    refine ⟨?_, ?_, ?_⟩
    · show 1 ≤ b.nextId + 1
      omega
    · intro k hk
      have hk1 : b.nextId + 1 ≤ k := hk
      exact h2 k (by omega)
    · show ((idRange (b.nextId + 1)).filterMap (mapLookup b.tests)).map Test.Name = _
      rw [idRange_succ _ h1, List.filterMap_append, List.map_append, h3]
      simp [h2 b.nextId (le_refl _), Event.createdName]
  | appendOutput l => simp [Event.isNamedTestOrBench] at he
  | createPackage n d => simp [Event.isNamedTestOrBench] at he
  | build => simp [Event.isNamedTestOrBench] at he

theorem TestsInv_run (es : List Event) (b : ReportBuilder) (names : List String)
    (hes : ∀ e ∈ es, e.isNamedTestOrBench = true) (h : TestsInv b names) :
    TestsInv (b.run es) (names ++ es.filterMap Event.createdName) := by
  induction es generalizing b names with
  | nil => simpa [run_nil] using h
  | cons e es ih =>
    have he := hes e (List.mem_cons_self e es)
    have hrest : ∀ x ∈ es, x.isNamedTestOrBench = true :=
      fun x hx => hes x (List.mem_cons_of_mem e hx)
    have h1 := ih (b.step e) (names ++ e.createdName.toList) hrest (TestsInv_step b names e he h)
    rw [run_cons]
    cases hc : e.createdName with
    | none => simpa [List.filterMap_cons, hc] using h1
    | some n => simpa [List.filterMap_cons, hc] using h1

theorem TestsInv_fresh (b : ReportBuilder) (h : FreshWindow b) : TestsInv b [] := by
  obtain ⟨h1, _, h3, _, _⟩ := h
  refine ⟨by omega, ?_, ?_⟩
  · intro k _
    rw [h1]; rfl
  · rw [h3, idRange_one]; rfl

theorem step_window_packages (b : ReportBuilder) (e : Event) (he : e.isWindow = true) :
    (b.step e).packages = b.packages := by
  cases e with
  | appendOutput l =>
    show (b.AppendOutput l).packages = b.packages
    unfold ReportBuilder.AppendOutput
    split <;> rfl
  | createPackage n d => simp [Event.isWindow] at he
  | build => simp [Event.isWindow] at he
  | _ => rfl

theorem run_window_packages (es : List Event) (b : ReportBuilder)
    (hes : ∀ e ∈ es, e.isWindow = true) : (b.run es).packages = b.packages := by
  induction es generalizing b with
  | nil => rfl
  | cons e es ih =>
    rw [run_cons, ih (b.step e) (fun x hx => hes x (List.mem_cons_of_mem e hx))]
    exact step_window_packages b e (hes e (List.mem_cons_self e es))

theorem isWindow_of_named (e : Event) (h : e.isNamedTestOrBench = true) : e.isWindow = true := by
  cases e <;> simp_all [Event.isNamedTestOrBench, Event.isWindow]

theorem AppendOutput_frame (b : ReportBuilder) (l : String) :
    (b.AppendOutput l).benchmarks = b.benchmarks ∧ (b.AppendOutput l).nextId = b.nextId ∧
      (b.AppendOutput l).lastId = b.lastId ∧ (b.AppendOutput l).packages = b.packages := by
  unfold ReportBuilder.AppendOutput
  split <;> exact ⟨rfl, rfl, rfl, rfl⟩

theorem BenchInv_step (b : ReportBuilder) (recs : List Benchmark) (e : Event)
    (he : e.isWindow = true) (h : BenchInv b recs) :
    BenchInv (b.step e) (recs ++ e.recorded.toList) := by
  obtain ⟨h1, h2, h3⟩ := h
  cases e with
  | createTest n =>
    refine ⟨?_, ?_, ?_⟩
    · show 1 ≤ b.nextId + 1
      omega
    · intro k hk
      have hk1 : b.nextId + 1 ≤ k := hk
      exact h2 k (by omega)
    · show (idRange (b.nextId + 1)).filterMap (mapLookup b.benchmarks) = _
      rw [idRange_succ _ h1, List.filterMap_append, h3]
      simp [h2 b.nextId (le_refl _), Event.recorded]
  | endTest n r d =>
    refine ⟨h1, h2, ?_⟩
    show (idRange b.nextId).filterMap (mapLookup b.benchmarks) = _
    rw [h3]
    simp [Event.recorded]
  | benchmark n i ns mb by_ al =>
    refine ⟨?_, ?_, ?_⟩
    · show 1 ≤ b.nextId + 1
      omega
    · intro k hk
      have hk1 : b.nextId + 1 ≤ k := hk
      show mapLookup (mapStore b.benchmarks b.nextId _) k = none
      rw [mapLookup_store_ne _ _ _ _ (by omega)]
      exact h2 k (by omega)
    · show (idRange (b.nextId + 1)).filterMap
        (mapLookup (mapStore b.benchmarks b.nextId ⟨n, Result.Pass, i, ns, mb, by_, al⟩)) = _
      rw [idRange_succ _ h1, List.filterMap_append]
      have e1 : (idRange b.nextId).filterMap
          (mapLookup (mapStore b.benchmarks b.nextId ⟨n, Result.Pass, i, ns, mb, by_, al⟩))
          = (idRange b.nextId).filterMap (mapLookup b.benchmarks) := by
        apply filterMap_agree
        intro j hj
        have := (mem_idRange _ _).1 hj
        exact mapLookup_store_ne _ _ _ _ (by omega)
      rw [e1, h3]
      simp [mapLookup_store_same, Event.recorded]
  | appendOutput l =>
    obtain ⟨f1, f2, _, _⟩ := AppendOutput_frame b l
    have hstep : b.step (Event.appendOutput l) = b.AppendOutput l := rfl
    rw [hstep]
    refine ⟨by rw [f2]; exact h1, ?_, ?_⟩
    · intro k hk
      rw [f2] at hk
      rw [f1]
      exact h2 k hk
    · rw [f1, f2, h3]
      simp [Event.recorded]
  | createPackage n d => simp [Event.isWindow] at he
  | build => simp [Event.isWindow] at he

theorem BenchInv_run (es : List Event) (b : ReportBuilder) (recs : List Benchmark)
    (hes : ∀ e ∈ es, e.isWindow = true) (h : BenchInv b recs) :
    BenchInv (b.run es) (recs ++ es.filterMap Event.recorded) := by
  induction es generalizing b recs with
  | nil => simpa [run_nil] using h
  | cons e es ih =>
    have he := hes e (List.mem_cons_self e es)
    have hrest : ∀ x ∈ es, x.isWindow = true :=
      fun x hx => hes x (List.mem_cons_of_mem e hx)
    have h1 := ih (b.step e) (recs ++ e.recorded.toList) hrest (BenchInv_step b recs e he h)
    rw [run_cons]
    cases hc : e.recorded with
    | none => simpa [List.filterMap_cons, hc] using h1
    | some n => simpa [List.filterMap_cons, hc] using h1

theorem BenchInv_fresh (b : ReportBuilder) (h : FreshWindow b) : BenchInv b [] := by
  obtain ⟨_, h2, h3, _, _⟩ := h
  refine ⟨by omega, ?_, ?_⟩
  · intro k _
    rw [h2]; rfl
  · rw [h3, idRange_one]; rfl

/-! ## Lemmas on output attribution and on reachable states -/

theorem nextId_pos_step (b : ReportBuilder) (e : Event) (h : 1 ≤ b.nextId) :
    1 ≤ (b.step e).nextId := by
  cases e with
  | createTest n =>
    show 1 ≤ b.nextId + 1
    omega
  | endTest n r d => exact h
  | benchmark n i ns mb by_ al =>
    show 1 ≤ b.nextId + 1
    omega
  | appendOutput l =>
    show 1 ≤ (b.AppendOutput l).nextId
    rw [(AppendOutput_frame b l).2.1]
    exact h
  | createPackage n d => exact le_refl _
  | build =>
    show 1 ≤ (b.flush).nextId
    unfold ReportBuilder.flush
    split
    · exact le_refl _
    · exact h

theorem nextId_pos_run (es : List Event) (b : ReportBuilder) (h : 1 ≤ b.nextId) :
    1 ≤ (b.run es).nextId := by
  induction es generalizing b with
  | nil => exact h
  | cons e es ih =>
    rw [run_cons]
    exact ih (b.step e) (nextId_pos_step b e h)

theorem Reachable.nextId_pos {b : ReportBuilder} (h : Reachable b) : 1 ≤ b.nextId := by
  obtain ⟨es, rfl⟩ := h
  exact nextId_pos_run es NewReportBuilder (le_refl _)

theorem run_appendOutput_tracked (lines : List String) (s : ReportBuilder) (t : Test)
    (hpos : 0 < s.lastId) (hl : mapLookup s.tests s.lastId = some t) :
    mapLookup (s.run (lines.map Event.appendOutput)).tests s.lastId
        = some { t with Output := t.Output ++ lines } ∧
      (∀ k, k ≠ s.lastId →
        mapLookup (s.run (lines.map Event.appendOutput)).tests k = mapLookup s.tests k) ∧
      (s.run (lines.map Event.appendOutput)).output = s.output ∧
      (s.run (lines.map Event.appendOutput)).nextId = s.nextId ∧
      (s.run (lines.map Event.appendOutput)).packages = s.packages := by
  induction lines generalizing s t with
  | nil =>
    refine ⟨?_, fun _ _ => rfl, rfl, rfl, rfl⟩
    simpa [run_nil] using hl
  | cons l lines ih =>
    have hstep : s.step (Event.appendOutput l)
        = { s with tests := mapStore s.tests s.lastId { t with Output := t.Output ++ [l] } } := by
      show s.AppendOutput l = _
      unfold ReportBuilder.AppendOutput
      rw [if_neg (by omega), testAt_of_lookup _ _ _ hl]
    rw [List.map_cons, run_cons, hstep]
    have h := ih { s with tests := mapStore s.tests s.lastId { t with Output := t.Output ++ [l] } }
      { t with Output := t.Output ++ [l] } hpos (mapLookup_store_same _ _ _)
    obtain ⟨h1, h2, h3, h4, h5⟩ := h
    refine ⟨?_, ?_, h3, h4, h5⟩
    · simpa [List.append_assoc] using h1
    · intro k hk
      rw [h2 k hk]
      exact mapLookup_store_ne _ _ _ _ hk

theorem run_appendOutput_untracked (lines : List String) (s : ReportBuilder)
    (h : s.lastId ≤ 0) :
    s.run (lines.map Event.appendOutput) = { s with output := s.output ++ lines } := by
  induction lines generalizing s with
  | nil => simp [run_nil]
  | cons l lines ih =>
    have hstep : s.step (Event.appendOutput l) = { s with output := s.output ++ [l] } := by
      show s.AppendOutput l = _
      unfold ReportBuilder.AppendOutput
      rw [if_pos h]
    rw [List.map_cons, run_cons, hstep,
      ih { s with output := s.output ++ [l] } h]
    simp [List.append_assoc]

theorem tests_nonempty_step (b : ReportBuilder) (e : Event) (he : e.isWindow = true)
    (h : 0 < mapLen b.tests) : 0 < mapLen (b.step e).tests := by
  cases e with
  | createTest n => exact mapLen_store_pos _ _ _
  | endTest n r d => exact mapLen_store_pos _ _ _
  | benchmark n i ns mb by_ al => exact h
  | appendOutput l =>
    show 0 < mapLen (b.AppendOutput l).tests
    unfold ReportBuilder.AppendOutput
    split
    · exact h
    · exact mapLen_store_pos _ _ _
  | createPackage n d => simp [Event.isWindow] at he
  | build => simp [Event.isWindow] at he

theorem tests_nonempty_run (es : List Event) (b : ReportBuilder)
    (hes : ∀ e ∈ es, e.isWindow = true) (h : 0 < mapLen b.tests) :
    0 < mapLen (b.run es).tests := by
  induction es generalizing b with
  | nil => exact h
  | cons e es ih =>
    rw [run_cons]
    exact ih (b.step e) (fun x hx => hes x (List.mem_cons_of_mem e hx))
      (tests_nonempty_step b e (hes e (List.mem_cons_self e es)) h)

/-! ## Lemmas on flushing -/

theorem flush_of_tests_nonempty (b : ReportBuilder) (h : 0 < mapLen b.tests) :
    b.flush = b.CreatePackage "unknown" 0 := by
  unfold ReportBuilder.flush
  rw [if_pos h]

theorem flush_of_tests_empty (b : ReportBuilder) (h : mapLen b.tests = 0) : b.flush = b := by
  unfold ReportBuilder.flush
  rw [if_neg (by omega)]

theorem snapshot_withFlushed (ps : List Package) (b : ReportBuilder) :
    snapshot (withFlushed ps b) = snapshot b := by
  rw [snapshot_eq, snapshot_eq]
  rfl

theorem CreatePackage_withFlushed (ps : List Package) (b : ReportBuilder) (n : String)
    (d : Int) : (withFlushed ps b).CreatePackage n d = withFlushed ps (b.CreatePackage n d) := by
  unfold ReportBuilder.CreatePackage
  rw [snapshot_withFlushed]
  simp [withFlushed]

theorem withFlushed_step (ps : List Package) (b : ReportBuilder) (e : Event) :
    (withFlushed ps b).step e = withFlushed ps (b.step e) := by
  cases e with
  | createTest n => rfl
  | endTest n r d => rfl
  | benchmark n i ns mb by_ al => rfl
  | appendOutput l =>
    show (withFlushed ps b).AppendOutput l = withFlushed ps (b.AppendOutput l)
    unfold ReportBuilder.AppendOutput
    by_cases h : b.lastId ≤ 0
    · have h2 : (withFlushed ps b).lastId ≤ 0 := h
      rw [if_pos h, if_pos h2]
      rfl
    · have h2 : ¬ (withFlushed ps b).lastId ≤ 0 := h
      rw [if_neg h, if_neg h2]
      rfl
  | createPackage n d =>
    exact CreatePackage_withFlushed ps b n d
  | build =>
    show (withFlushed ps b).flush = withFlushed ps b.flush
    by_cases h : 0 < mapLen b.tests
    · have h2 : 0 < mapLen (withFlushed ps b).tests := h
      rw [flush_of_tests_nonempty b h, flush_of_tests_nonempty _ h2]
      exact CreatePackage_withFlushed ps b "unknown" 0
    · have h1 : mapLen b.tests = 0 := by omega
      have h2 : mapLen (withFlushed ps b).tests = 0 := h1
      rw [flush_of_tests_empty b h1, flush_of_tests_empty _ h2]

theorem withFlushed_run (ps : List Package) (es : List Event) (b : ReportBuilder) :
    (withFlushed ps b).run es = withFlushed ps (b.run es) := by
  induction es generalizing b with
  | nil => rfl
  | cons e es ih => rw [run_cons, run_cons, withFlushed_step, ih]

theorem fresh_eq_withFlushed (b : ReportBuilder) (h : FreshWindow b) :
    b = withFlushed b.packages NewReportBuilder := by
  obtain ⟨h1, h2, h3, h4, h5⟩ := h
  cases b
  simp only at h1 h2 h3 h4 h5
  subst h1 h2 h3 h4 h5
  simp [withFlushed, NewReportBuilder]

theorem flush_withFlushed (ps : List Package) (b : ReportBuilder) :
    (withFlushed ps b).flush = withFlushed ps b.flush :=
  withFlushed_step ps b Event.build

/-! ## Lemmas on the accounting of output lines -/

theorem testAt_store_same (m : List (Int × Test)) (k : Int) (v : Test) :
    testAt (mapStore m k v) k = v := by
  simp [testAt, mapLookup_store_same]

theorem testAt_store_ne (m : List (Int × Test)) (k j : Int) (v : Test) (h : j ≠ k) :
    testAt (mapStore m k v) j = testAt m j := by
  simp [testAt, mapLookup_store_ne m k j v h]

theorem testAt_of_lookup_none (m : List (Int × Test)) (k : Int) (h : mapLookup m k = none) :
    testAt m k = Test.zero := by
  simp [testAt, h]

theorem flatten_outputs_filterMap (m : List (Int × Test)) (ids : List Int) :
    ((ids.filterMap (mapLookup m)).map Test.Output).flatten = outputsOver m ids := by
  induction ids with
  | nil => rfl
  | cons i ids ih =>
    have hcons : outputsOver m (i :: ids) = (testAt m i).Output ++ outputsOver m ids := by
      simp [outputsOver]
    rw [hcons, ← ih, List.filterMap_cons]
    cases hl : mapLookup m i with
    | none => simp [testAt, hl, Test.zero]
    | some t => simp [testAt, hl]

theorem outputsOver_append (m : List (Int × Test)) (ids1 ids2 : List Int) :
    outputsOver m (ids1 ++ ids2) = outputsOver m ids1 ++ outputsOver m ids2 := by
  simp [outputsOver]

theorem outputsOver_agree (m1 m2 : List (Int × Test)) (ids : List Int)
    (h : ∀ i ∈ ids, (testAt m1 i).Output = (testAt m2 i).Output) :
    outputsOver m1 ids = outputsOver m2 ids := by
  induction ids with
  | nil => rfl
  | cons i ids ih =>
    have h1 : outputsOver m1 (i :: ids) = (testAt m1 i).Output ++ outputsOver m1 ids := by
      simp [outputsOver]
    have h2 : outputsOver m2 (i :: ids) = (testAt m2 i).Output ++ outputsOver m2 ids := by
      simp [outputsOver]
    rw [h1, h2, h i (List.mem_cons_self i ids),
      ih (fun j hj => h j (List.mem_cons_of_mem i hj))]

theorem outputsOver_add_line (m1 m2 : List (Int × Test)) (k : Int) (line : String)
    (hk : (testAt m1 k).Output = (testAt m2 k).Output ++ [line])
    (hrest : ∀ i, i ≠ k → (testAt m1 i).Output = (testAt m2 i).Output)
    (ids : List Int) (hnd : ids.Nodup) (hmem : k ∈ ids) :
    List.Perm (outputsOver m1 ids) (line :: outputsOver m2 ids) := by
  induction ids with
  | nil => simp at hmem
  | cons i ids ih =>
    have h1 : outputsOver m1 (i :: ids) = (testAt m1 i).Output ++ outputsOver m1 ids := by
      simp [outputsOver]
    have h2 : outputsOver m2 (i :: ids) = (testAt m2 i).Output ++ outputsOver m2 ids := by
      simp [outputsOver]
    have hni : i ∉ ids := (List.nodup_cons.1 hnd).1
    have hnd2 : ids.Nodup := (List.nodup_cons.1 hnd).2
    rw [h1, h2]
    by_cases hik : i = k
    · subst hik
      have hsame : outputsOver m1 ids = outputsOver m2 ids := by
        apply outputsOver_agree
        intro j hj
        exact hrest j (fun hEq => hni (hEq ▸ hj))
      rw [hk, hsame, List.append_assoc]
      exact List.perm_middle
    · have hmem2 : k ∈ ids := by
        rcases List.mem_cons.1 hmem with h | h
        · exact absurd h.symm hik
        · exact h
      rw [hrest i hik]
      exact (List.Perm.append_left _ (ih hnd2 hmem2)).trans List.perm_middle

theorem idRange_nodup (n : Int) : (idRange n).Nodup := by
  unfold idRange
  apply List.Nodup.map
  · intro x y hxy
    have : (x : Int) + 1 = (y : Int) + 1 := hxy
    omega
  · exact List.nodup_range _

theorem LinesInv_step (b : ReportBuilder) (lines : List String) (e : Event)
    (he : e.isNamedWindow = true) (h : LinesInv b lines) :
    LinesInv (b.step e) (lines ++ e.outputLine.toList) := by
  obtain ⟨h1, h2, h3, h4⟩ := h
  cases e with
  | createTest n =>
    refine ⟨?_, ?_, ?_, ?_⟩
    · show 1 ≤ b.nextId + 1
      omega
    · intro k hk
      have hk1 : b.nextId + 1 ≤ k := hk
      show mapLookup (mapStore b.tests b.nextId _) k = none
      rw [mapLookup_store_ne _ _ _ _ (by omega)]
      exact h2 k (by omega)
    · show b.nextId < b.nextId + 1
      omega
    · show List.Perm (outputsOver (mapStore b.tests b.nextId ⟨n, Result.Unset, 0, []⟩)
        (idRange (b.nextId + 1)) ++ b.output) _
      rw [idRange_succ _ h1, outputsOver_append]
      have e1 : outputsOver (mapStore b.tests b.nextId ⟨n, Result.Unset, 0, []⟩)
          (idRange b.nextId) = outputsOver b.tests (idRange b.nextId) := by
        apply outputsOver_agree
        intro i hi
        have := (mem_idRange _ _).1 hi
        rw [testAt_store_ne _ _ _ _ (by omega)]
      have e2 : outputsOver (mapStore b.tests b.nextId ⟨n, Result.Unset, 0, []⟩) [b.nextId]
          = [] := by
        simp [outputsOver, testAt_store_same]
      rw [e1, e2]
      simpa [Event.outputLine] using h4
  | endTest n r d =>
    have hn : n ≠ "" := by simpa [Event.isNamedWindow] using he
    have hstep : b.step (Event.endTest n r d) = b.EndTest n r d := rfl
    rw [hstep]
    have hid : b.findTest n < b.nextId := by
      rcases findTest_spec b n hn with hf | ⟨t, hl, _⟩
      · rw [hf]; omega
      · by_contra hge
        rw [h2 _ (by omega)] at hl
        exact Option.noConfusion hl
    refine ⟨h1, ?_, hid, ?_⟩
    · intro k hk
      have hk1 : b.nextId ≤ k := hk
      show mapLookup (mapStore b.tests (b.findTest n) _) k = none
      rw [mapLookup_store_ne _ _ _ _ (by omega)]
      exact h2 k hk1
    · show List.Perm (outputsOver (mapStore b.tests (b.findTest n) _) (idRange b.nextId)
        ++ b.output) _
      have e1 : outputsOver (mapStore b.tests (b.findTest n)
          { testAt b.tests (b.findTest n) with Result := parseResult r, Duration := d })
          (idRange b.nextId) = outputsOver b.tests (idRange b.nextId) := by
        apply outputsOver_agree
        intro i _
        by_cases hi : i = b.findTest n
        · rw [hi, testAt_store_same]
        · rw [testAt_store_ne _ _ _ _ hi]
      rw [e1]
      simpa [Event.outputLine] using h4
  | benchmark n i ns mb by_ al =>
    refine ⟨?_, ?_, ?_, ?_⟩
    · show 1 ≤ b.nextId + 1
      omega
    · intro k hk
      have hk1 : b.nextId + 1 ≤ k := hk
      exact h2 k (by omega)
    · show b.nextId < b.nextId + 1
      omega
    · show List.Perm (outputsOver b.tests (idRange (b.nextId + 1)) ++ b.output) _
      rw [idRange_succ _ h1, outputsOver_append]
      have e2 : outputsOver b.tests [b.nextId] = [] := by
        simp [outputsOver, testAt_of_lookup_none _ _ (h2 b.nextId (le_refl _)), Test.zero]
      rw [e2]
      simpa [Event.outputLine] using h4
  | appendOutput l =>
    have hstep : b.step (Event.appendOutput l) = b.AppendOutput l := rfl
    rw [hstep]
    have hgoal : (lines ++ (Event.appendOutput l).outputLine.toList) = lines ++ [l] := rfl
    rw [hgoal]
    by_cases hl : b.lastId ≤ 0
    · have hs : b.AppendOutput l = { b with output := b.output ++ [l] } := by
        unfold ReportBuilder.AppendOutput
        rw [if_pos hl]
      rw [hs]
      refine ⟨h1, h2, h3, ?_⟩
      show List.Perm (outputsOver b.tests (idRange b.nextId) ++ (b.output ++ [l])) _
      rw [← List.append_assoc]
      exact List.Perm.append_right _ h4
    · have hs : b.AppendOutput l = { b with tests := (mapStore b.tests b.lastId
          ⟨(testAt b.tests b.lastId).Name, (testAt b.tests b.lastId).Result,
            (testAt b.tests b.lastId).Duration, (testAt b.tests b.lastId).Output ++ [l]⟩) } := by
        unfold ReportBuilder.AppendOutput
        rw [if_neg hl]
      rw [hs]
      refine ⟨h1, ?_, h3, ?_⟩
      · intro k hk
        have hk1 : b.nextId ≤ k := hk
        show mapLookup (mapStore b.tests b.lastId _) k = none
        rw [mapLookup_store_ne _ _ _ _ (by omega)]
        exact h2 k hk1
      · show List.Perm (outputsOver (mapStore b.tests b.lastId _) (idRange b.nextId)
          ++ b.output) _
        have hp := outputsOver_add_line
          (mapStore b.tests b.lastId
            ⟨(testAt b.tests b.lastId).Name, (testAt b.tests b.lastId).Result,
              (testAt b.tests b.lastId).Duration, (testAt b.tests b.lastId).Output ++ [l]⟩)
          b.tests b.lastId l (by rw [testAt_store_same])
          (fun i hi => by rw [testAt_store_ne _ _ _ _ hi])
          (idRange b.nextId) (idRange_nodup _) ((mem_idRange _ _).2 ⟨by omega, h3⟩)
        have hp2 := (List.Perm.append_right b.output hp).trans
          (List.Perm.cons l h4)
        exact hp2.trans (List.perm_append_singleton l lines).symm
  | createPackage n d => simp [Event.isNamedWindow] at he
  | build => simp [Event.isNamedWindow] at he

theorem LinesInv_run (es : List Event) (b : ReportBuilder) (lines : List String)
    (hes : ∀ e ∈ es, e.isNamedWindow = true) (h : LinesInv b lines) :
    LinesInv (b.run es) (lines ++ es.filterMap Event.outputLine) := by
  induction es generalizing b lines with
  | nil => simpa [run_nil] using h
  | cons e es ih =>
    have he := hes e (List.mem_cons_self e es)
    have hrest : ∀ x ∈ es, x.isNamedWindow = true :=
      fun x hx => hes x (List.mem_cons_of_mem e hx)
    have h1 := ih (b.step e) (lines ++ e.outputLine.toList) hrest (LinesInv_step b lines e he h)
    rw [run_cons]
    cases hc : e.outputLine with
    | none => simpa [List.filterMap_cons, hc] using h1
    | some n => simpa [List.filterMap_cons, hc] using h1

theorem LinesInv_fresh (b : ReportBuilder) (h : FreshWindow b) : LinesInv b [] := by
  obtain ⟨h1, _, h3, h4, h5⟩ := h
  refine ⟨by omega, ?_, by omega, ?_⟩
  · intro k _
    rw [h1]; rfl
  · rw [h3, idRange_one, h5]
    exact List.Perm.refl _

theorem isWindow_of_namedWindow (e : Event) (h : e.isNamedWindow = true) :
    e.isWindow = true := by
  cases e <;> simp_all [Event.isNamedWindow, Event.isWindow]

/-! ## Lemmas on the keys of a map -/

theorem mem_mapKeys_erase {α : Type} (m : List (Int × α)) (k j : Int)
    (h : j ∈ mapKeys (mapErase m k)) : j ∈ mapKeys m ∧ j ≠ k := by
  induction m with
  | nil => simp [mapErase, mapKeys] at h
  | cons e m ih =>
    obtain ⟨k1, v⟩ := e
    by_cases hk : k1 = k
    · have he : mapErase ((k1, v) :: m) k = mapErase m k := by simp [mapErase, hk]
      rw [he] at h
      obtain ⟨h1, h2⟩ := ih h
      exact ⟨List.mem_cons_of_mem _ h1, h2⟩
    · have he : mapErase ((k1, v) :: m) k = (k1, v) :: mapErase m k := by simp [mapErase, hk]
      rw [he] at h
      rcases List.mem_cons.1 h with h1 | h1
      · have hj : j = k1 := h1
        exact ⟨by rw [hj]; exact List.mem_cons_self _ _, by rw [hj]; exact hk⟩
      · obtain ⟨h2, h3⟩ := ih h1
        exact ⟨List.mem_cons_of_mem _ h2, h3⟩

theorem nodup_mapKeys_erase {α : Type} (m : List (Int × α)) (k : Int)
    (h : (mapKeys m).Nodup) : (mapKeys (mapErase m k)).Nodup := by
  induction m with
  | nil => simp [mapErase, mapKeys]
  | cons e m ih =>
    obtain ⟨k1, v⟩ := e
    have hcons : mapKeys ((k1, v) :: m) = k1 :: mapKeys m := rfl
    rw [hcons] at h
    obtain ⟨h1, h2⟩ := List.nodup_cons.1 h
    by_cases hk : k1 = k
    · have he : mapErase ((k1, v) :: m) k = mapErase m k := by simp [mapErase, hk]
      rw [he]
      exact ih h2
    · have he : mapErase ((k1, v) :: m) k = (k1, v) :: mapErase m k := by simp [mapErase, hk]
      rw [he]
      have hcons2 : mapKeys ((k1, v) :: mapErase m k) = k1 :: mapKeys (mapErase m k) := rfl
      rw [hcons2]
      exact List.nodup_cons.2 ⟨fun hmem => h1 (mem_mapKeys_erase m k k1 hmem).1, ih h2⟩

theorem nodup_mapKeys_store {α : Type} (m : List (Int × α)) (k : Int) (v : α)
    (h : (mapKeys m).Nodup) : (mapKeys (mapStore m k v)).Nodup := by
  have hcons : mapKeys (mapStore m k v) = k :: mapKeys (mapErase m k) := rfl
  rw [hcons]
  exact List.nodup_cons.2
    ⟨fun hmem => (mem_mapKeys_erase m k k hmem).2 rfl, nodup_mapKeys_erase m k h⟩

theorem mapLookup_none_of_not_mem {α : Type} (m : List (Int × α)) (k : Int)
    (h : k ∉ mapKeys m) : mapLookup m k = none := by
  induction m with
  | nil => rfl
  | cons e m ih =>
    obtain ⟨k1, v⟩ := e
    have hcons : mapKeys ((k1, v) :: m) = k1 :: mapKeys m := rfl
    rw [hcons] at h
    have hne : ¬ k1 = k := fun hEq => h (hEq ▸ List.mem_cons_self _ _)
    have hm : k ∉ mapKeys m := fun hmem => h (List.mem_cons_of_mem _ hmem)
    simp [mapLookup, hne, ih hm]

theorem mapErase_of_lookup_none {α : Type} (m : List (Int × α)) (k : Int)
    (h : mapLookup m k = none) : mapErase m k = m := by
  induction m with
  | nil => rfl
  | cons e m ih =>
    obtain ⟨k1, v⟩ := e
    by_cases hk : k1 = k
    · simp [mapLookup, hk] at h
    · have h2 : mapLookup m k = none := by simpa [mapLookup, hk] using h
      simp [mapErase, hk, ih h2]

theorem length_le_erase {α : Type} (m : List (Int × α)) (k : Int) (h : (mapKeys m).Nodup) :
    m.length ≤ (mapErase m k).length + 1 := by
  induction m with
  | nil => simp
  | cons e m ih =>
    obtain ⟨k1, v⟩ := e
    have hcons : mapKeys ((k1, v) :: m) = k1 :: mapKeys m := rfl
    rw [hcons] at h
    obtain ⟨h1, h2⟩ := List.nodup_cons.1 h
    by_cases hk : k1 = k
    · have he : mapErase ((k1, v) :: m) k = mapErase m k := by simp [mapErase, hk]
      have hnone : mapLookup m k = none := mapLookup_none_of_not_mem m k (hk ▸ h1)
      rw [he, mapErase_of_lookup_none m k hnone]
      simp
    · have he : mapErase ((k1, v) :: m) k = (k1, v) :: mapErase m k := by simp [mapErase, hk]
      rw [he]
      have := ih h2
      simp only [List.length_cons]
      omega

theorem mapLen_store_ge {α : Type} (m : List (Int × α)) (k : Int) (v : α)
    (h : (mapKeys m).Nodup) : mapLen m ≤ mapLen (mapStore m k v) := by
  have := length_le_erase m k h
  simp only [mapLen, mapStore, List.length_cons]
  omega

theorem mapLen_store_new {α : Type} (m : List (Int × α)) (k : Int) (v : α)
    (h : mapLookup m k = none) : mapLen (mapStore m k v) = mapLen m + 1 := by
  simp [mapLen, mapStore, mapErase_of_lookup_none m k h]

theorem mapLookup_store_some {α : Type} (m : List (Int × α)) (k j : Int) (v w : α)
    (h : mapLookup (mapStore m k v) j = some w) :
    (j = k ∧ w = v) ∨ (j ≠ k ∧ mapLookup m j = some w) := by
  by_cases hj : j = k
  · left
    rw [hj, mapLookup_store_same] at h
    exact ⟨hj, (Option.some.inj h).symm⟩
  · right
    rw [mapLookup_store_ne _ _ _ _ hj] at h
    exact ⟨hj, h⟩

/-! ## Lemmas on the tie-break of name resolution -/

theorem scanTests_greatest (tests : List (Int × Test)) (name : String) (N : Nat) :
    (scanTests tests name N = -1 ∧
      ∀ j : Nat, j ≤ N → (testAt tests (j : Int)).Name ≠ name) ∨
    (∃ r : Nat, scanTests tests name N = (r : Int) ∧ r ≤ N ∧
      (testAt tests (r : Int)).Name = name ∧
      ∀ j : Nat, r < j → j ≤ N → (testAt tests (j : Int)).Name ≠ name) := by
  induction N with
  | zero =>
    by_cases h : (testAt tests 0).Name = name
    · right
      refine ⟨0, by simp [scanTests, h], le_refl _, by simpa using h, ?_⟩
      intro j h1 h2
      omega
    · left
      refine ⟨by simp [scanTests, h], ?_⟩
      intro j hj
      have hj0 : j = 0 := by omega
      subst hj0
      simpa using h
  | succ n ih =>
    by_cases h : (testAt tests ((n : Int) + 1)).Name = name
    · right
      refine ⟨n + 1, by simp [scanTests, h], le_refl _, by simpa using h, ?_⟩
      intro j h1 h2
      omega
    · have hs : scanTests tests name (n + 1) = scanTests tests name n := by
        simp [scanTests, h]
      rw [hs]
      have hne : ∀ j : Nat, j = n + 1 → (testAt tests (j : Int)).Name ≠ name := by
        intro j hj
        subst hj
        simpa using h
      rcases ih with ⟨h1, h2⟩ | ⟨r, h1, h2, h3, h4⟩
      · left
        refine ⟨h1, ?_⟩
        intro j hj
        by_cases hjn : j ≤ n
        · exact h2 j hjn
        · exact hne j (by omega)
      · right
        refine ⟨r, h1, by omega, h3, ?_⟩
        intro j hj1 hj2
        by_cases hjn : j ≤ n
        · exact h4 j hj1 hjn
        · exact hne j (by omega)

theorem findTest_greatest (b : ReportBuilder) (n : String) (h : DupInv b) (hn : n ≠ "")
    (hex : ∃ k t, mapLookup b.tests k = some t ∧ t.Name = n) :
    (∃ t, mapLookup b.tests (b.findTest n) = some t ∧ t.Name = n) ∧
      ∀ k u, mapLookup b.tests k = some u → u.Name = n → k ≤ b.findTest n := by
  obtain ⟨h1, _, hlen, hkeys, _, hmax⟩ := h
  unfold ReportBuilder.findTest
  by_cases hf : lastIsTest b n = true
  · rw [if_pos hf]
    unfold lastIsTest at hf
    cases hl : mapLookup b.tests b.lastId with
    | none => simp [hl] at hf
    | some t =>
      have ht : t.Name = n := by simpa [hl] using hf
      exact ⟨⟨t, rfl, ht⟩, fun k u hk hu => hmax t hl k u hk (hu.trans ht.symm)⟩
  · rw [if_neg hf]
    have hrange : ∀ k u, mapLookup b.tests k = some u → u.Name = n →
        1 ≤ k ∧ k ≤ (mapLen b.tests : Int) := by
      intro k u hk hu
      rcases hkeys k u hk with ⟨_, h3⟩ | ⟨h2, h3, _⟩
      · exact absurd (hu.symm.trans h3) hn
      · exact ⟨h2, by omega⟩
    rcases scanTests_greatest b.tests n (mapLen b.tests) with ⟨_, hall⟩ | ⟨r, hs, _, hname, hall⟩
    · exfalso
      obtain ⟨k, t, hk, ht⟩ := hex
      obtain ⟨hk1, hk2⟩ := hrange k t hk ht
      have hne := hall k.toNat (by omega)
      have hcast : ((k.toNat : Nat) : Int) = k := by omega
      rw [hcast, testAt_of_lookup _ _ _ hk] at hne
      exact hne ht
    · rw [hs]
      refine ⟨lookup_of_testAt_name _ _ _ hn hname, ?_⟩
      intro k u hk hu
      by_contra hgt
      obtain ⟨hk1, hk2⟩ := hrange k u hk hu
      have hne := hall k.toNat (by omega) (by omega)
      have hcast : ((k.toNat : Nat) : Int) = k := by omega
      rw [hcast, testAt_of_lookup _ _ _ hk] at hne
      exact hne hu

theorem DupInv_update (b : ReportBuilder) (k : Int) (t u : Test)
    (hl : mapLookup b.tests k = some t) (hu : u.Name = t.Name)
    (hmaxk : ∀ j v, mapLookup b.tests j = some v → v.Name = t.Name → j ≤ k) (h : DupInv b) :
    DupInv { b with lastId := k, tests := mapStore b.tests k u } := by
  obtain ⟨h1, hnd, hlen, hkeys, _, _⟩ := h
  refine ⟨h1, nodup_mapKeys_store _ _ _ hnd, ?_, ?_, ?_, ?_⟩
  · have := mapLen_store_ge b.tests k u hnd
    show b.nextId ≤ (mapLen (mapStore b.tests k u) : Int) + 1
    omega
  · intro j v hj
    rcases mapLookup_store_some _ _ _ _ _ hj with ⟨hjk, hv⟩ | ⟨_, hold⟩
    · rw [hjk, hv, hu]
      exact hkeys k t hl
    · exact hkeys j v hold
  · intro _
    exact ⟨u, mapLookup_store_same _ _ _⟩
  · intro t1 ht1 j v hj hv
    have ht1u : t1 = u := by
      have h2 : mapLookup (mapStore b.tests k u) k = some t1 := ht1
      rw [mapLookup_store_same] at h2
      exact (Option.some.inj h2).symm
    rcases mapLookup_store_some _ _ _ _ _ hj with ⟨hjk, _⟩ | ⟨_, hold⟩
    · show j ≤ k
      omega
    · exact hmaxk j v hold (by rw [hv, ht1u, hu])

theorem DupInv_step (b : ReportBuilder) (e : Event) (he : e.isNamedTestOrOutput = true)
    (h : DupInv b) : DupInv (b.step e) := by
  cases e with
  | createTest n =>
    have hn : n ≠ "" := by simpa [Event.isNamedTestOrOutput] using he
    obtain ⟨h1, hnd, hlen, hkeys, _, _⟩ := h
    have hnone : mapLookup b.tests b.nextId = none := by
      cases hl : mapLookup b.tests b.nextId with
      | none => rfl
      | some t =>
        rcases hkeys _ t hl with ⟨h2, _⟩ | ⟨_, h2, _⟩ <;> omega
    refine ⟨?_, nodup_mapKeys_store _ _ _ hnd, ?_, ?_, ?_, ?_⟩
    · show 1 ≤ b.nextId + 1
      omega
    · show b.nextId + 1 ≤ (mapLen (mapStore b.tests b.nextId _) : Int) + 1
      rw [mapLen_store_new _ _ _ hnone]
      push_cast
      omega
    · intro j v hj
      have hj2 : mapLookup (mapStore b.tests b.nextId ⟨n, Result.Unset, 0, []⟩) j = some v := hj
      show (j = -1 ∧ v.Name = "") ∨ (1 ≤ j ∧ j < b.nextId + 1 ∧ v.Name ≠ "")
      rcases mapLookup_store_some _ _ _ _ _ hj2 with ⟨hjk, hv⟩ | ⟨_, hold⟩
      · right
        rw [hjk, hv]
        exact ⟨h1, by omega, hn⟩
      · rcases hkeys j v hold with h2 | ⟨h2, h3, h4⟩
        · left; exact h2
        · right; exact ⟨h2, by omega, h4⟩
    · intro _
      exact ⟨_, mapLookup_store_same _ _ _⟩
    · intro _ _ j v hj _
      have hj2 : mapLookup (mapStore b.tests b.nextId ⟨n, Result.Unset, 0, []⟩) j = some v := hj
      show j ≤ b.nextId
      rcases mapLookup_store_some _ _ _ _ _ hj2 with ⟨hjk, _⟩ | ⟨_, hold⟩
      · omega
      · rcases hkeys j v hold with ⟨h2, _⟩ | ⟨_, h2, _⟩ <;> omega
  | endTest n r d =>
    have hn : n ≠ "" := by simpa [Event.isNamedTestOrOutput] using he
    rcases findTest_spec b n hn with hf | ⟨t, hl, ht⟩
    · obtain ⟨h1, hnd, hlen, hkeys, _, _⟩ := h
      have hname : (testAt b.tests (-1)).Name = "" := by
        cases hl : mapLookup b.tests (-1) with
        | none => rw [testAt_of_lookup_none _ _ hl]; rfl
        | some t =>
          rw [testAt_of_lookup _ _ _ hl]
          rcases hkeys _ t hl with ⟨_, h2⟩ | ⟨h2, _, _⟩
          · exact h2
          · omega
      have hst : b.step (Event.endTest n r d)
          = { b with lastId := -1, tests := (mapStore b.tests (-1)
              ⟨(testAt b.tests (-1)).Name, parseResult r, d, (testAt b.tests (-1)).Output⟩) } := by
        show b.EndTest n r d = _
        unfold ReportBuilder.EndTest
        rw [hf]
      rw [hst]
      have hkeys2 : ∀ j v, mapLookup (mapStore b.tests (-1)
          (⟨(testAt b.tests (-1)).Name, parseResult r, d, (testAt b.tests (-1)).Output⟩ : Test)) j
            = some v → (j = -1 ∧ v.Name = "") ∨ (1 ≤ j ∧ j < b.nextId ∧ v.Name ≠ "") := by
        intro j v hj
        rcases mapLookup_store_some _ _ _ _ _ hj with ⟨hjk, hv⟩ | ⟨_, hold⟩
        · left
          rw [hv]
          exact ⟨hjk, hname⟩
        · exact hkeys j v hold
      refine ⟨h1, nodup_mapKeys_store _ _ _ hnd, ?_, hkeys2, ?_, ?_⟩
      · have := mapLen_store_ge b.tests (-1)
          (⟨(testAt b.tests (-1)).Name, parseResult r, d, (testAt b.tests (-1)).Output⟩ : Test)
          hnd
        show b.nextId ≤ (mapLen (mapStore b.tests (-1) _) : Int) + 1
        omega
      · intro hpos
        have : (0 : Int) < -1 := hpos
        omega
      · intro t1 ht1 j v hj hv
        have ht1n : t1.Name = "" := by
          rcases hkeys2 _ t1 ht1 with ⟨_, h2⟩ | ⟨h2, _, _⟩
          · exact h2
          · have h3 : (1 : Int) ≤ -1 := h2
            omega
        show j ≤ -1
        rcases hkeys2 j v hj with ⟨h2, _⟩ | ⟨_, _, h2⟩
        · omega
        · exact absurd (hv.trans ht1n) h2
    · have hg := (findTest_greatest b n h hn ⟨_, t, hl, ht⟩).2
      exact DupInv_update b (b.findTest n) t
        { testAt b.tests (b.findTest n) with Result := parseResult r, Duration := d } hl
        (by show (testAt b.tests (b.findTest n)).Name = t.Name
            rw [testAt_of_lookup _ _ _ hl])
        (fun j v hj hv => hg j v hj (hv.trans ht)) h
  | appendOutput l =>
    show DupInv (b.AppendOutput l)
    by_cases hl : b.lastId ≤ 0
    · have hs : b.AppendOutput l = { b with output := b.output ++ [l] } := by
        unfold ReportBuilder.AppendOutput
        rw [if_pos hl]
      rw [hs]
      exact h
    · obtain ⟨t, ht⟩ := h.2.2.2.2.1 (by omega)
      have hs : b.AppendOutput l = { b with lastId := b.lastId, tests := (mapStore b.tests
          b.lastId ⟨t.Name, t.Result, t.Duration, t.Output ++ [l]⟩) } := by
        unfold ReportBuilder.AppendOutput
        rw [if_neg hl, testAt_of_lookup _ _ _ ht]
      rw [hs]
      exact DupInv_update b b.lastId t _ ht rfl (h.2.2.2.2.2 t ht) h
  | benchmark n i ns mb by_ al => simp [Event.isNamedTestOrOutput] at he
  | createPackage n d => simp [Event.isNamedTestOrOutput] at he
  | build => simp [Event.isNamedTestOrOutput] at he

theorem DupInv_run (es : List Event) (b : ReportBuilder)
    (hes : ∀ e ∈ es, e.isNamedTestOrOutput = true) (h : DupInv b) : DupInv (b.run es) := by
  induction es generalizing b with
  | nil => exact h
  | cons e es ih =>
    rw [run_cons]
    exact ih (b.step e) (fun x hx => hes x (List.mem_cons_of_mem e hx))
      (DupInv_step b e (hes e (List.mem_cons_self e es)) h)

theorem DupInv_fresh (b : ReportBuilder) (h : FreshWindow b) : DupInv b := by
  obtain ⟨h1, _, h3, h4, _⟩ := h
  refine ⟨by omega, ?_, ?_, ?_, ?_, ?_⟩
  · rw [h1]; exact List.nodup_nil
  · rw [h1, h3]; simp [mapLen]
  · intro k t hk
    rw [h1] at hk
    exact Option.noConfusion hk
  · intro hpos
    omega
  · intro t ht
    rw [h1] at ht
    exact Option.noConfusion ht

/-! ## C1 -/

/-- C1: from a fresh builder, CreateTest(n); EndTest(n, r, d); CreatePackage(p, pd);
Build() returns a report with exactly one package, named p with duration pd, no
benchmarks, no output, and the single test with name n, result parseResult(r),
duration d and no output. -/
theorem C1_single_test_report (n r p : String) (d pd : Int) :
    ((((NewReportBuilder.CreateTest n).EndTest n r d).CreatePackage p pd).Build).1
      = ⟨[⟨p, pd, [⟨n, parseResult r, d, []⟩], [], []⟩]⟩ := by
  have hf : (NewReportBuilder.CreateTest n).findTest n = 1 := by
    simp [ReportBuilder.findTest, lastIsTest, ReportBuilder.CreateTest, NewReportBuilder,
      mapStore, mapLookup]
  simp [ReportBuilder.Build, ReportBuilder.flush, ReportBuilder.CreatePackage, mapLen,
    snapshot_eq, ReportBuilder.EndTest, hf, testAt]
  simp [ReportBuilder.CreateTest, NewReportBuilder, idRange, List.range_succ, mapStore,
    mapLookup]

/-! ## C2 -/

/-- C2: on a builder whose window is fresh, after any sequence of CreateTest,
EndTest and Benchmark calls with non-empty test names, CreatePackage appends one
package whose tests carry exactly the names passed to CreateTest, in call order. -/
theorem C2_tests_in_creation_order (b : ReportBuilder) (es : List Event) (p : String) (d : Int)
    (hb : FreshWindow b) (hes : ∀ e ∈ es, e.isNamedTestOrBench = true) :
    ∃ pkg : Package, ((b.run es).CreatePackage p d).packages = b.packages ++ [pkg] ∧
      pkg.Tests.map Test.Name = es.filterMap Event.createdName := by
  have hinv := TestsInv_run es b [] hes (TestsInv_fresh b hb)
  have hp := run_window_packages es b (fun e he => isWindow_of_named e (hes e he))
  refine ⟨⟨p, d, (snapshot (b.run es)).1, (snapshot (b.run es)).2, (b.run es).output⟩, ?_, ?_⟩
  · show (b.run es).packages ++ _ = _
    rw [hp]
  · show (snapshot (b.run es)).1.map Test.Name = _
    rw [snapshot_eq]
    simpa using hinv.2.2

/-- C2, at a concrete interleaving of the three kinds of call. -/
theorem C2_tests_in_creation_order_witness :
    ∃ pkg : Package,
      ((NewReportBuilder.run [Event.benchmark "B1" 100 5 0 16 1, Event.createTest "T1",
          Event.createTest "T2", Event.endTest "T1" "PASS" 0]).CreatePackage "pkg" 0).packages
        = NewReportBuilder.packages ++ [pkg] ∧
      pkg.Tests.map Test.Name
        = [Event.benchmark "B1" 100 5 0 16 1, Event.createTest "T1", Event.createTest "T2",
            Event.endTest "T1" "PASS" 0].filterMap Event.createdName :=
  C2_tests_in_creation_order NewReportBuilder _ "pkg" 0 (by decide) (by decide)

/-! ## C3 -/

/-- C3: on a builder whose window is fresh, after any sequence of CreateTest,
EndTest, Benchmark and AppendOutput calls, CreatePackage appends one package whose
benchmarks are exactly the records of the Benchmark calls, in call order, each
with result Pass and the six values it was created with. -/
theorem C3_benchmarks_in_call_order (b : ReportBuilder) (es : List Event) (p : String)
    (d : Int) (hb : FreshWindow b) (hes : ∀ e ∈ es, e.isWindow = true) :
    ∃ pkg : Package, ((b.run es).CreatePackage p d).packages = b.packages ++ [pkg] ∧
      pkg.Benchmarks = es.filterMap Event.recorded := by
  have hinv := BenchInv_run es b [] hes (BenchInv_fresh b hb)
  have hp := run_window_packages es b hes
  refine ⟨⟨p, d, (snapshot (b.run es)).1, (snapshot (b.run es)).2, (b.run es).output⟩, ?_, ?_⟩
  · show (b.run es).packages ++ _ = _
    rw [hp]
  · show (snapshot (b.run es)).2 = _
    rw [snapshot_eq]
    simpa using hinv.2.2

/-- C3, at a concrete interleaving of the four kinds of call. -/
theorem C3_benchmarks_in_call_order_witness :
    ∃ pkg : Package,
      ((NewReportBuilder.run [Event.benchmark "B1" 100 5 0 16 1, Event.appendOutput "x",
          Event.createTest "T1", Event.benchmark "B2" 7 3 2 1 0,
          Event.endTest "T1" "PASS" 0]).CreatePackage "pkg" 0).packages
        = NewReportBuilder.packages ++ [pkg] ∧
      pkg.Benchmarks
        = [Event.benchmark "B1" 100 5 0 16 1, Event.appendOutput "x", Event.createTest "T1",
            Event.benchmark "B2" 7 3 2 1 0, Event.endTest "T1" "PASS" 0].filterMap
              Event.recorded :=
  C3_benchmarks_in_call_order NewReportBuilder _ "pkg" 0 (by decide) (by decide)

/-! ## C4 -/

/-- What holds in every reachable state after CreateTest(A) followed only by
AppendOutput(l1), ..., AppendOutput(lk): the entry under the new identifier is A
with output exactly l1..lk, the package-level output is unchanged, every entry
under another identifier is unchanged, and CreatePackage appends a package whose
tests are those emitted for the window before the call followed by, as last test,
A with the unset result, zero duration and output l1..lk. Nothing is said here
about an entry that sat under the new identifier before the call. -/
theorem CreateTest_output_attribution (b : ReportBuilder) (A : String) (lines : List String)
    (p : String) (d : Int) (hb : Reachable b) :
    mapLookup ((b.CreateTest A).run (lines.map Event.appendOutput)).tests b.nextId
        = some ⟨A, Result.Unset, 0, lines⟩ ∧
      ((b.CreateTest A).run (lines.map Event.appendOutput)).output = b.output ∧
      (∀ k, k ≠ b.nextId →
        mapLookup ((b.CreateTest A).run (lines.map Event.appendOutput)).tests k
          = mapLookup b.tests k) ∧
      ∃ pkg : Package,
        (((b.CreateTest A).run (lines.map Event.appendOutput)).CreatePackage p d).packages
          = b.packages ++ [pkg] ∧
        pkg.Tests = (snapshot b).1 ++ [⟨A, Result.Unset, 0, lines⟩] ∧
        pkg.Tests.getLast? = some ⟨A, Result.Unset, 0, lines⟩ := by
  have hpos := hb.nextId_pos
  have hl : mapLookup (b.CreateTest A).tests (b.CreateTest A).lastId
      = some ⟨A, Result.Unset, 0, []⟩ := mapLookup_store_same _ _ _
  have hlast : (b.CreateTest A).lastId = b.nextId := rfl
  obtain ⟨h1, h2, h3, h4, h5⟩ :=
    run_appendOutput_tracked lines (b.CreateTest A) _ (by rw [hlast]; omega) hl
  rw [hlast] at h1 h2
  refine ⟨by simpa using h1, h3, ?_, ?_⟩
  · intro k hk
    rw [h2 k hk]
    exact mapLookup_store_ne _ _ _ _ hk
  · refine ⟨⟨p, d, (snapshot ((b.CreateTest A).run (lines.map Event.appendOutput))).1,
      (snapshot ((b.CreateTest A).run (lines.map Event.appendOutput))).2,
      ((b.CreateTest A).run (lines.map Event.appendOutput)).output⟩, ?_, ?_⟩
    · show ((b.CreateTest A).run (lines.map Event.appendOutput)).packages ++ _ = _
      rw [h5]
      rfl
    · have hn : (b.CreateTest A).nextId = b.nextId + 1 := rfl
      have hold : (idRange b.nextId).filterMap
          (mapLookup ((b.CreateTest A).run (lines.map Event.appendOutput)).tests)
          = (idRange b.nextId).filterMap (mapLookup b.tests) := by
        apply filterMap_agree
        intro i hi
        have hlt := (mem_idRange _ _).1 hi
        have hne : i ≠ b.nextId := by omega
        rw [h2 i hne]
        exact mapLookup_store_ne _ _ _ _ hne
      have hT : (snapshot ((b.CreateTest A).run (lines.map Event.appendOutput))).1
          = (snapshot b).1 ++ [⟨A, Result.Unset, 0, lines⟩] := by
        rw [snapshot_eq, snapshot_eq, h4, hn, idRange_succ _ hpos, List.filterMap_append, hold]
        simp [h1]
      constructor
      · exact hT
      · show (snapshot ((b.CreateTest A).run (lines.map Event.appendOutput))).1.getLast? = _
        rw [hT]
        simp

/-- The same, at a reachable state that already holds a test with output. -/
theorem CreateTest_output_attribution_witness :
    mapLookup (((NewReportBuilder.run [Event.createTest "T0", Event.appendOutput "z"]).CreateTest
        "A").run (["l1", "l2"].map Event.appendOutput)).tests
        (NewReportBuilder.run [Event.createTest "T0", Event.appendOutput "z"]).nextId
        = some ⟨"A", Result.Unset, 0, ["l1", "l2"]⟩ ∧
      mapLookup (((NewReportBuilder.run [Event.createTest "T0", Event.appendOutput "z"]).CreateTest
        "A").run (["l1", "l2"].map Event.appendOutput)).tests 1
        = some ⟨"T0", Result.Unset, 0, ["z"]⟩ :=
  ⟨(CreateTest_output_attribution
      (NewReportBuilder.run [Event.createTest "T0", Event.appendOutput "z"]) "A" ["l1", "l2"]
      "pkg" 0 ⟨_, rfl⟩).1,
   ((CreateTest_output_attribution
      (NewReportBuilder.run [Event.createTest "T0", Event.appendOutput "z"]) "A" ["l1", "l2"]
      "pkg" 0 ⟨_, rfl⟩).2.2.1 1 (by decide)).trans (by decide)⟩

/-- C4: the state after EndTest(X, PASS, 0); CreateTest(A); EndTest("", FAIL, 5);
AppendOutput(p) on a fresh builder is reachable, has next identifier 2 and holds
under key 2 a nameless test with result Fail, duration 5 and output [p]: the scan
of findTest("") starts at len(tests) = 2 and takes the missing key 2 for a match.
CreateTest(T2); AppendOutput(l1) then stores T2 under key 2, so the test that was
there is no longer in the store: it is not true that every other test is
unchanged. The emitted package holds A and T2 only and the line p is lost. -/
theorem C4_createTest_overwrites_entry_under_nextId :
    Reachable (NewReportBuilder.run [Event.endTest "X" "PASS" 0, Event.createTest "A",
        Event.endTest "" "FAIL" 5, Event.appendOutput "p"]) ∧
    (NewReportBuilder.run [Event.endTest "X" "PASS" 0, Event.createTest "A",
        Event.endTest "" "FAIL" 5, Event.appendOutput "p"]).nextId = 2 ∧
    mapLookup (NewReportBuilder.run [Event.endTest "X" "PASS" 0, Event.createTest "A",
        Event.endTest "" "FAIL" 5, Event.appendOutput "p"]).tests 2
      = some ⟨"", Result.Fail, 5, ["p"]⟩ ∧
    mapLookup (((NewReportBuilder.run [Event.endTest "X" "PASS" 0, Event.createTest "A",
        Event.endTest "" "FAIL" 5, Event.appendOutput "p"]).CreateTest "T2").run
        (["l1"].map Event.appendOutput)).tests 2
      = some ⟨"T2", Result.Unset, 0, ["l1"]⟩ ∧
    (⟨"", Result.Fail, 5, ["p"]⟩ : Test) ∉
      (((NewReportBuilder.run [Event.endTest "X" "PASS" 0, Event.createTest "A",
        Event.endTest "" "FAIL" 5, Event.appendOutput "p"]).CreateTest "T2").run
        (["l1"].map Event.appendOutput)).tests.map Prod.snd ∧
    ((((NewReportBuilder.run [Event.endTest "X" "PASS" 0, Event.createTest "A",
        Event.endTest "" "FAIL" 5, Event.appendOutput "p"]).CreateTest "T2").run
        (["l1"].map Event.appendOutput)).CreatePackage "pkg" 0).packages
      = [⟨"pkg", 0, [⟨"A", Result.Unset, 0, []⟩, ⟨"T2", Result.Unset, 0, ["l1"]⟩], [], []⟩] ∧
    ¬ (∀ k t, mapLookup (NewReportBuilder.run [Event.endTest "X" "PASS" 0,
        Event.createTest "A", Event.endTest "" "FAIL" 5, Event.appendOutput "p"]).tests k
          = some t →
        mapLookup (((NewReportBuilder.run [Event.endTest "X" "PASS" 0, Event.createTest "A",
          Event.endTest "" "FAIL" 5, Event.appendOutput "p"]).CreateTest "T2").run
          (["l1"].map Event.appendOutput)).tests k = some t) := by
  have h2 : mapLookup (NewReportBuilder.run [Event.endTest "X" "PASS" 0, Event.createTest "A",
      Event.endTest "" "FAIL" 5, Event.appendOutput "p"]).tests 2
      = some ⟨"", Result.Fail, 5, ["p"]⟩ := by decide
  have h3 : mapLookup (((NewReportBuilder.run [Event.endTest "X" "PASS" 0, Event.createTest "A",
      Event.endTest "" "FAIL" 5, Event.appendOutput "p"]).CreateTest "T2").run
      (["l1"].map Event.appendOutput)).tests 2
      = some ⟨"T2", Result.Unset, 0, ["l1"]⟩ := by decide
  refine ⟨⟨_, rfl⟩, by decide, h2, h3, by decide, by decide, ?_⟩
  intro hall
  have h4 := hall 2 _ h2
  rw [h3] at h4
  exact absurd h4 (by decide)

/-! ## C5 -/

/-- C5: on a builder whose window is fresh, AppendOutput(l1); ...; AppendOutput(lk);
CreatePackage(p, d) appends the package with name p, duration d, no tests, no
benchmarks and output exactly l1..lk. -/
theorem C5_stray_output_goes_to_package (b : ReportBuilder) (lines : List String)
    (p : String) (d : Int) (hb : FreshWindow b) :
    ((b.run (lines.map Event.appendOutput)).CreatePackage p d).packages
      = b.packages ++ [⟨p, d, [], [], lines⟩] := by
  obtain ⟨h1, h2, h3, h4, h5⟩ := hb
  rw [run_appendOutput_untracked lines b (by omega)]
  simp [ReportBuilder.CreatePackage, snapshot_eq, h3, idRange_one, h5]

/-- C5, on the fresh builder with the single line "stray". -/
theorem C5_stray_output_goes_to_package_witness :
    ((NewReportBuilder.run (["stray"].map Event.appendOutput)).CreatePackage "pkg" 0).packages
      = NewReportBuilder.packages ++ [⟨"pkg", 0, [], [], ["stray"]⟩] :=
  C5_stray_output_goes_to_package NewReportBuilder ["stray"] "pkg" 0 (by decide)

/-! ## C6 -/

/-- C6: when CreateTest has been called since the last flush (any state b, then
CreateTest, then any window calls), Build returns the flushed packages followed by
one package named "unknown" with duration 0 holding exactly the tests, benchmarks
and output that CreatePackage snapshots from that window; and from a fresh builder
CreateTest(n); AppendOutput(l); EndTest(n, "FAIL", 0); Build() yields one package
with the single test of name n, result Fail and output [l]. -/
theorem C6_build_flushes_open_tests :
    (∀ (b : ReportBuilder) (n : String) (es : List Event),
      (∀ e ∈ es, e.isWindow = true) →
        (((b.CreateTest n).run es).Build).1.Packages
            = b.packages ++ [⟨"unknown", 0, (snapshot ((b.CreateTest n).run es)).1,
                (snapshot ((b.CreateTest n).run es)).2, ((b.CreateTest n).run es).output⟩] ∧
          ∀ (p : String) (d : Int), (((b.CreateTest n).run es).CreatePackage p d).packages
            = b.packages ++ [⟨p, d, (snapshot ((b.CreateTest n).run es)).1,
                (snapshot ((b.CreateTest n).run es)).2, ((b.CreateTest n).run es).output⟩]) ∧
    (∀ (n l : String),
      ((((NewReportBuilder.CreateTest n).AppendOutput l).EndTest n "FAIL" 0).Build).1
        = ⟨[⟨"unknown", 0, [⟨n, Result.Fail, 0, [l]⟩], [], []⟩]⟩) := by
  constructor
  · intro b n es hes
    have hlen := tests_nonempty_run es (b.CreateTest n) hes (mapLen_store_pos _ _ _)
    have hp : ((b.CreateTest n).run es).packages = b.packages :=
      run_window_packages es (b.CreateTest n) hes
    constructor
    · show (((b.CreateTest n).run es).flush).packages = _
      unfold ReportBuilder.flush
      rw [if_pos hlen]
      show ((b.CreateTest n).run es).packages ++ _ = _
      rw [hp]
    · intro p d
      show ((b.CreateTest n).run es).packages ++ _ = _
      rw [hp]
  · intro n l
    have h1 : (NewReportBuilder.CreateTest n).AppendOutput l
        = ⟨[], [(1, ⟨n, Result.Unset, 0, [l]⟩)], [], 2, 1, []⟩ := by
      simp [ReportBuilder.AppendOutput, ReportBuilder.CreateTest, NewReportBuilder, testAt,
        mapStore, mapLookup, mapErase]
    have hf : (⟨[], [(1, ⟨n, Result.Unset, 0, [l]⟩)], [], 2, 1, []⟩ : ReportBuilder).findTest n
        = 1 := by
      simp [ReportBuilder.findTest, lastIsTest, mapLookup]
    rw [h1]
    simp [ReportBuilder.Build, ReportBuilder.flush, ReportBuilder.CreatePackage, mapLen,
      snapshot_eq, ReportBuilder.EndTest, hf, testAt, mapStore, mapLookup, mapErase, idRange,
      List.range_succ, parseResult]

/-- C6, at a concrete window with an interleaved benchmark and output line. -/
theorem C6_build_flushes_open_tests_witness :
    (((NewReportBuilder.CreateTest "T1").run
        [Event.appendOutput "hello", Event.benchmark "B1" 1 0 0 0 0]).Build).1.Packages
      = NewReportBuilder.packages ++ [⟨"unknown", 0,
          (snapshot ((NewReportBuilder.CreateTest "T1").run
            [Event.appendOutput "hello", Event.benchmark "B1" 1 0 0 0 0])).1,
          (snapshot ((NewReportBuilder.CreateTest "T1").run
            [Event.appendOutput "hello", Event.benchmark "B1" 1 0 0 0 0])).2,
          ((NewReportBuilder.CreateTest "T1").run
            [Event.appendOutput "hello", Event.benchmark "B1" 1 0 0 0 0]).output⟩] :=
  (C6_build_flushes_open_tests.1 NewReportBuilder "T1"
    [Event.appendOutput "hello", Event.benchmark "B1" 1 0 0 0 0] (by decide)).1

/-! ## C7 -/

/-- C7: parseResult maps exactly "PASS" to Pass, "FAIL" to Fail and "SKIP" to Skip
and every other string (the empty string and "pass" among them) to Unknown; and
the test that EndTest(name, r, d) resolves to is stored with result
parseResult(r), so it is Pass, Fail or Skip exactly when r is "PASS", "FAIL" or
"SKIP", and Unknown for every other r. -/
theorem C7_parseResult_classification :
    parseResult "PASS" = Result.Pass ∧ parseResult "FAIL" = Result.Fail ∧
    parseResult "SKIP" = Result.Skip ∧
    (∀ r : String, r ≠ "PASS" → r ≠ "FAIL" → r ≠ "SKIP" → parseResult r = Result.Unknown) ∧
    parseResult "" = Result.Unknown ∧ parseResult "pass" = Result.Unknown ∧
    (∀ (b : ReportBuilder) (name r : String) (d : Int),
      ∃ t : Test, mapLookup (b.EndTest name r d).tests (b.findTest name) = some t ∧
        t.Result = parseResult r ∧
        (t.Result = Result.Pass ↔ r = "PASS") ∧ (t.Result = Result.Fail ↔ r = "FAIL") ∧
        (t.Result = Result.Skip ↔ r = "SKIP") ∧
        (t.Result = Result.Unknown ↔ (r ≠ "PASS" ∧ r ≠ "FAIL" ∧ r ≠ "SKIP"))) := by
  have hiff : ∀ r : String,
      (parseResult r = Result.Pass ↔ r = "PASS") ∧ (parseResult r = Result.Fail ↔ r = "FAIL") ∧
      (parseResult r = Result.Skip ↔ r = "SKIP") ∧
      (parseResult r = Result.Unknown ↔ (r ≠ "PASS" ∧ r ≠ "FAIL" ∧ r ≠ "SKIP")) := by
    intro r
    unfold parseResult
    by_cases h1 : r = "PASS"
    · subst h1; simp
    · by_cases h2 : r = "FAIL"
      · subst h2; simp
      · by_cases h3 : r = "SKIP"
        · subst h3; simp
        · simp [h1, h2, h3]
  refine ⟨by decide, by decide, by decide, ?_, by decide, by decide, ?_⟩
  · intro r h1 h2 h3
    exact (hiff r).2.2.2.2 ⟨h1, h2, h3⟩
  · intro b name r d
    refine ⟨{ testAt b.tests (b.findTest name) with
      Result := parseResult r, Duration := d }, mapLookup_store_same _ _ _, rfl, ?_⟩
    exact hiff r

/-- C7, at the string "pass", which differs from all three recognised strings. -/
theorem C7_parseResult_classification_witness : parseResult "pass" = Result.Unknown :=
  C7_parseResult_classification.2.2.2.1 "pass" (by decide) (by decide) (by decide)

/-! ## C8 -/

/-- C8: after Benchmark(B1); CreateTest(T1); Benchmark(B2) on a fresh builder the
window holds the test T1 under identifier 2, yet findTest(T1) returns -1: the scan
starts at len(tests) = 1 and never reaches identifier 2. EndTest(T1, PASS, 1) then
leaves test 2 without result and stores a nameless entry under key -1. -/
theorem C8_endTest_misses_test_behind_benchmark :
    mapLookup (NewReportBuilder.run [Event.benchmark "B1" 1 0 0 0 0, Event.createTest "T1",
        Event.benchmark "B2" 1 0 0 0 0]).tests 2 = some ⟨"T1", Result.Unset, 0, []⟩ ∧
    (NewReportBuilder.run [Event.benchmark "B1" 1 0 0 0 0, Event.createTest "T1",
        Event.benchmark "B2" 1 0 0 0 0]).findTest "T1" = -1 ∧
    mapLookup ((NewReportBuilder.run [Event.benchmark "B1" 1 0 0 0 0, Event.createTest "T1",
        Event.benchmark "B2" 1 0 0 0 0]).EndTest "T1" "PASS" 1).tests 2
      = some ⟨"T1", Result.Unset, 0, []⟩ ∧
    mapLookup ((NewReportBuilder.run [Event.benchmark "B1" 1 0 0 0 0, Event.createTest "T1",
        Event.benchmark "B2" 1 0 0 0 0]).EndTest "T1" "PASS" 1).tests (-1)
      = some ⟨"", Result.Pass, 1, []⟩ := by
  decide

/-! ## C9 -/

/-- C9: on the fresh builder no test is named T1, findTest(T1) returns -1, and
EndTest(T1, PASS, 0) stores a new nameless entry under key -1, so the test store
is no longer empty and a following Build emits an empty package "unknown". -/
theorem C9_endTest_miss_writes_phantom_entry :
    NewReportBuilder.findTest "T1" = -1 ∧
    NewReportBuilder.tests = [] ∧
    (NewReportBuilder.EndTest "T1" "PASS" 0).tests = [(-1, ⟨"", Result.Pass, 0, []⟩)] ∧
    ((NewReportBuilder.EndTest "T1" "PASS" 0).Build).1 = ⟨[⟨"unknown", 0, [], [], []⟩]⟩ := by
  decide

/-! ## C10 -/

/-- C10: after Benchmark(B1) the tracker holds the benchmark identifier 1, and
AppendOutput(x) stores a nameless test with output [x] under that identifier:
Benchmark(B1); AppendOutput(x); CreatePackage(p, 0) yields a package with one
test, where the same calls without AppendOutput yield none. -/
theorem C10_output_after_benchmark_creates_test :
    (NewReportBuilder.Benchmark "B1" 100 5 0 16 1).lastId = 1 ∧
    mapLookup (NewReportBuilder.Benchmark "B1" 100 5 0 16 1).benchmarks 1
      = some ⟨"B1", Result.Pass, 100, 5, 0, 16, 1⟩ ∧
    (((NewReportBuilder.Benchmark "B1" 100 5 0 16 1).AppendOutput "x").CreatePackage "p" 0).packages
      = [⟨"p", 0, [⟨"", Result.Unset, 0, ["x"]⟩], [⟨"B1", Result.Pass, 100, 5, 0, 16, 1⟩], []⟩] ∧
    ((NewReportBuilder.Benchmark "B1" 100 5 0 16 1).CreatePackage "p" 0).packages
      = [⟨"p", 0, [], [⟨"B1", Result.Pass, 100, 5, 0, 16, 1⟩], []⟩] := by
  decide

/-! ## C11 -/

/-- C11, as stated, fails: after Benchmark(B1) on a fresh builder the test store
is empty, Build does not flush and returns a report without packages, so there is
no last package holding B1. -/
theorem C11_build_skips_benchmark_window :
    ((NewReportBuilder.Benchmark "B1" 100 5 0 16 1).Build).1.Packages = [] ∧
    ¬ ∃ pkg : Package,
      ((NewReportBuilder.Benchmark "B1" 100 5 0 16 1).Build).1.Packages.getLast? = some pkg ∧
        pkg.Benchmarks = [⟨"B1", Result.Pass, 100, 5, 0, 16, 1⟩] := by
  have h : ((NewReportBuilder.Benchmark "B1" 100 5 0 16 1).Build).1.Packages = [] := by decide
  refine ⟨h, ?_⟩
  rintro ⟨pkg, h1, _⟩
  rw [h] at h1
  simp at h1

/-- C11, amended: Build flushes exactly when the test store is non-empty. Then the
report ends with the package "unknown" of duration 0 holding the tests,
benchmarks and output of the window; when the test store is empty Build returns
the flushed packages only and leaves the builder as it is, also when the window
holds benchmarks or package-level output. -/
theorem C11_build_flushes_iff_tests_nonempty (b : ReportBuilder) :
    (0 < mapLen b.tests →
      b.Build.1.Packages
        = b.packages ++ [⟨"unknown", 0, (snapshot b).1, (snapshot b).2, b.output⟩]) ∧
    (mapLen b.tests = 0 → b.Build.1.Packages = b.packages ∧ b.Build.2 = b) := by
  constructor
  · intro h
    show (b.flush).packages = _
    rw [flush_of_tests_nonempty b h]
    rfl
  · intro h
    show (b.flush).packages = _ ∧ b.flush = b
    rw [flush_of_tests_empty b h]
    exact ⟨rfl, rfl⟩

/-- C11 amended, at a window with one test and at a window with one benchmark. -/
theorem C11_build_flushes_iff_tests_nonempty_witness :
    (NewReportBuilder.CreateTest "T1").Build.1.Packages
        = (NewReportBuilder.CreateTest "T1").packages ++
          [⟨"unknown", 0, (snapshot (NewReportBuilder.CreateTest "T1")).1,
            (snapshot (NewReportBuilder.CreateTest "T1")).2,
            (NewReportBuilder.CreateTest "T1").output⟩] ∧
      ((NewReportBuilder.Benchmark "B1" 100 5 0 16 1).Build.1.Packages
          = (NewReportBuilder.Benchmark "B1" 100 5 0 16 1).packages ∧
        (NewReportBuilder.Benchmark "B1" 100 5 0 16 1).Build.2
          = NewReportBuilder.Benchmark "B1" 100 5 0 16 1) :=
  ⟨(C11_build_flushes_iff_tests_nonempty (NewReportBuilder.CreateTest "T1")).1 (by decide),
   (C11_build_flushes_iff_tests_nonempty (NewReportBuilder.Benchmark "B1" 100 5 0 16 1)).2
     (by decide)⟩

/-! ## C12 -/

/-- C12: for every builder state, reachable or not, CreatePackage(p, d) leaves the
test store, the benchmark store and the output bucket empty, the next identifier
1 and the tracker 0, as in a fresh builder, and the package list is the previous
one with exactly one package appended. -/
theorem C12_createPackage_resets_window (b : ReportBuilder) (p : String) (d : Int) :
    (b.CreatePackage p d).tests = [] ∧ (b.CreatePackage p d).benchmarks = [] ∧
    (b.CreatePackage p d).output = [] ∧ (b.CreatePackage p d).nextId = 1 ∧
    (b.CreatePackage p d).lastId = 0 ∧
    (b.CreatePackage p d).tests = NewReportBuilder.tests ∧
    (b.CreatePackage p d).benchmarks = NewReportBuilder.benchmarks ∧
    (b.CreatePackage p d).output = NewReportBuilder.output ∧
    (b.CreatePackage p d).nextId = NewReportBuilder.nextId ∧
    (b.CreatePackage p d).lastId = NewReportBuilder.lastId ∧
    (b.CreatePackage p d).packages
      = b.packages ++ [⟨p, d, (snapshot b).1, (snapshot b).2, b.output⟩] :=
  ⟨rfl, rfl, rfl, rfl, rfl, rfl, rfl, rfl, rfl, rfl, rfl⟩

/-! ## C13 -/

/-- C13: for every builder state, a second Build right after a first one returns
the same report and leaves the builder as the first call left it. -/
theorem C13_build_idempotent (b : ReportBuilder) :
    (b.Build.2.Build).1 = b.Build.1 ∧ (b.Build.2.Build).2 = b.Build.2 := by
  have hflush : b.flush.flush = b.flush := by
    by_cases h : 0 < mapLen b.tests
    · rw [flush_of_tests_nonempty b h]
      exact flush_of_tests_empty _ rfl
    · have h1 : mapLen b.tests = 0 := by omega
      rw [flush_of_tests_empty b h1, flush_of_tests_empty b h1]
  constructor
  · show (⟨(b.flush.flush).packages⟩ : Report) = ⟨(b.flush).packages⟩
    rw [hflush]
  · exact hflush

/-! ## C14 -/

/-- C14: after Benchmark(B1); AppendOutput(x) on a fresh builder, identifier 1 is
a key of the benchmark store and of the test store at once. -/
theorem C14_identifier_shared_after_benchmark_output :
    mapLookup (NewReportBuilder.run [Event.benchmark "B1" 100 5 0 16 1,
        Event.appendOutput "x"]).benchmarks 1 = some ⟨"B1", Result.Pass, 100, 5, 0, 16, 1⟩ ∧
    mapLookup (NewReportBuilder.run [Event.benchmark "B1" 100 5 0 16 1,
        Event.appendOutput "x"]).tests 1 = some ⟨"", Result.Unset, 0, ["x"]⟩ := by
  decide

/-! ## C15 -/

/-- C15: on a builder whose window is fresh, after any sequence of CreateTest,
EndTest, Benchmark and AppendOutput calls with non-empty test names, the package
that CreatePackage appends holds, over the outputs of its tests and its own
output, a rearrangement of the lines passed to AppendOutput (equal as multisets),
and their number is the number of AppendOutput calls. -/
theorem C15_every_line_lands_once (b : ReportBuilder) (es : List Event) (p : String) (d : Int)
    (hb : FreshWindow b) (hes : ∀ e ∈ es, e.isNamedWindow = true) :
    ∃ pkg : Package, ((b.run es).CreatePackage p d).packages = b.packages ++ [pkg] ∧
      List.Perm pkg.allOutput (es.filterMap Event.outputLine) ∧
      (pkg.Tests.map (fun t => t.Output.length)).sum + pkg.Output.length
        = (es.filterMap Event.outputLine).length := by
  have hinv := LinesInv_run es b [] hes (LinesInv_fresh b hb)
  have hp := run_window_packages es b (fun e he => isWindow_of_namedWindow e (hes e he))
  have hperm : List.Perm
      (Package.allOutput ⟨p, d, (snapshot (b.run es)).1, (snapshot (b.run es)).2,
        (b.run es).output⟩) (es.filterMap Event.outputLine) := by
    show List.Perm (((snapshot (b.run es)).1.map Test.Output).flatten ++ (b.run es).output) _
    rw [snapshot_eq, flatten_outputs_filterMap]
    simpa using hinv.2.2.2
  refine ⟨⟨p, d, (snapshot (b.run es)).1, (snapshot (b.run es)).2, (b.run es).output⟩,
    ?_, hperm, ?_⟩
  · show (b.run es).packages ++ _ = _
    rw [hp]
  · have hlen := hperm.length_eq
    rw [← hlen]
    simp [Package.allOutput, List.length_flatten, Function.comp_def]

/-- C15, at a concrete sequence whose lines go to a test, to the package and to the
identifier of a benchmark. -/
theorem C15_every_line_lands_once_witness :
    ∃ pkg : Package,
      ((NewReportBuilder.run [Event.appendOutput "a", Event.createTest "T1",
          Event.appendOutput "b", Event.benchmark "B1" 1 0 0 0 0, Event.appendOutput "c",
          Event.endTest "T1" "PASS" 0, Event.appendOutput "d"]).CreatePackage "pkg" 0).packages
        = NewReportBuilder.packages ++ [pkg] ∧
      List.Perm pkg.allOutput
        ([Event.appendOutput "a", Event.createTest "T1", Event.appendOutput "b",
          Event.benchmark "B1" 1 0 0 0 0, Event.appendOutput "c", Event.endTest "T1" "PASS" 0,
          Event.appendOutput "d"].filterMap Event.outputLine) ∧
      (pkg.Tests.map (fun t => t.Output.length)).sum + pkg.Output.length
        = ([Event.appendOutput "a", Event.createTest "T1", Event.appendOutput "b",
          Event.benchmark "B1" 1 0 0 0 0, Event.appendOutput "c", Event.endTest "T1" "PASS" 0,
          Event.appendOutput "d"].filterMap Event.outputLine).length :=
  C15_every_line_lands_once NewReportBuilder _ "pkg" 0 (by decide) (by decide)

/-! ## C16 -/

/-- C16: in a state reached from a fresh window by CreateTest, EndTest and
AppendOutput calls with non-empty names, for a non-empty name n carried by some
test of the window, findTest(n) is the identifier of a test named n and no test
named n has a greater identifier; EndTest(n, r, d) stores result and duration on
that test and leaves every other entry as it was. In particular after
CreateTest(Dup); CreateTest(Dup); EndTest(Dup, PASS, 0) the second-created test
is Pass and the first-created one still has the unset result. -/
theorem C16_most_recent_match_wins :
    (∀ (b : ReportBuilder) (es : List Event) (n r : String) (d : Int),
      FreshWindow b → (∀ e ∈ es, e.isNamedTestOrOutput = true) → n ≠ "" →
      (∃ k t, mapLookup (b.run es).tests k = some t ∧ t.Name = n) →
        (∃ t, mapLookup (b.run es).tests ((b.run es).findTest n) = some t ∧ t.Name = n) ∧
        (∀ k u, mapLookup (b.run es).tests k = some u → u.Name = n →
          k ≤ (b.run es).findTest n) ∧
        mapLookup ((b.run es).EndTest n r d).tests ((b.run es).findTest n)
          = some ⟨n, parseResult r, d, (testAt (b.run es).tests ((b.run es).findTest n)).Output⟩ ∧
        (∀ k, k ≠ (b.run es).findTest n →
          mapLookup ((b.run es).EndTest n r d).tests k = mapLookup (b.run es).tests k)) ∧
    (mapLookup (((NewReportBuilder.CreateTest "Dup").CreateTest "Dup").EndTest "Dup" "PASS"
        0).tests 2 = some ⟨"Dup", Result.Pass, 0, []⟩ ∧
      mapLookup (((NewReportBuilder.CreateTest "Dup").CreateTest "Dup").EndTest "Dup" "PASS"
        0).tests 1 = some ⟨"Dup", Result.Unset, 0, []⟩) := by
  constructor
  · intro b es n r d hb hes hn hex
    have hinv := DupInv_run es b hes (DupInv_fresh b hb)
    obtain ⟨⟨t, hl, ht⟩, hmax⟩ := findTest_greatest (b.run es) n hinv hn hex
    refine ⟨⟨t, hl, ht⟩, hmax, ?_, ?_⟩
    · show mapLookup (mapStore (b.run es).tests ((b.run es).findTest n) _)
        ((b.run es).findTest n) = _
      rw [mapLookup_store_same, testAt_of_lookup _ _ _ hl, ht]
    · intro k hk
      show mapLookup (mapStore (b.run es).tests ((b.run es).findTest n) _) k = _
      rw [mapLookup_store_ne _ _ _ _ hk]
  · decide

/-- C16, at a window where the name Dup is created, ended, and created again after
another test. -/
theorem C16_most_recent_match_wins_witness :
    mapLookup ((NewReportBuilder.run [Event.createTest "Dup", Event.createTest "X",
        Event.endTest "Dup" "FAIL" 1, Event.appendOutput "x", Event.createTest "Dup",
        Event.endTest "X" "PASS" 2]).EndTest "Dup" "PASS" 0).tests
        ((NewReportBuilder.run [Event.createTest "Dup", Event.createTest "X",
          Event.endTest "Dup" "FAIL" 1, Event.appendOutput "x", Event.createTest "Dup",
          Event.endTest "X" "PASS" 2]).findTest "Dup")
      = some ⟨"Dup", parseResult "PASS", 0,
          (testAt (NewReportBuilder.run [Event.createTest "Dup", Event.createTest "X",
            Event.endTest "Dup" "FAIL" 1, Event.appendOutput "x", Event.createTest "Dup",
            Event.endTest "X" "PASS" 2]).tests
            ((NewReportBuilder.run [Event.createTest "Dup", Event.createTest "X",
              Event.endTest "Dup" "FAIL" 1, Event.appendOutput "x", Event.createTest "Dup",
              Event.endTest "X" "PASS" 2]).findTest "Dup")).Output⟩ :=
  (C16_most_recent_match_wins.1 NewReportBuilder [Event.createTest "Dup", Event.createTest "X",
    Event.endTest "Dup" "FAIL" 1, Event.appendOutput "x", Event.createTest "Dup",
    Event.endTest "X" "PASS" 2] "Dup" "PASS" 0 (by decide) (by decide) (by decide)
    ⟨3, ⟨"Dup", Result.Unset, 0, []⟩, by decide, rfl⟩).2.2.1

/-! ## C17 -/

/-- C17: when findTest(n) returns the identifier i, at least 1, of a test in the
window, then after EndTest(n, r, d) a following AppendOutput(line) appends line at
the end of the output of test i and changes neither the package-level output nor
any test under another identifier, whatever tests were created after test i. -/
theorem C17_endTest_retargets_output (b : ReportBuilder) (n r line : String) (d : Int)
    (t : Test) (hi : 1 ≤ b.findTest n) (ht : mapLookup b.tests (b.findTest n) = some t) :
    mapLookup ((b.EndTest n r d).AppendOutput line).tests (b.findTest n)
        = some ⟨t.Name, parseResult r, d, t.Output ++ [line]⟩ ∧
      ((b.EndTest n r d).AppendOutput line).output = b.output ∧
      ∀ k, k ≠ b.findTest n →
        mapLookup ((b.EndTest n r d).AppendOutput line).tests k = mapLookup b.tests k := by
  have hlast : (b.EndTest n r d).lastId = b.findTest n := rfl
  have hstored : mapLookup (b.EndTest n r d).tests (b.findTest n)
      = some ⟨t.Name, parseResult r, d, t.Output⟩ := by
    show mapLookup (mapStore b.tests (b.findTest n) _) (b.findTest n) = _
    rw [mapLookup_store_same, testAt_of_lookup _ _ _ ht]
  have happ : (b.EndTest n r d).AppendOutput line
      = { (b.EndTest n r d) with
          tests := mapStore (b.EndTest n r d).tests (b.findTest n)
            ⟨t.Name, parseResult r, d, t.Output ++ [line]⟩ } := by
    unfold ReportBuilder.AppendOutput
    rw [if_neg (by rw [hlast]; omega), hlast, testAt_of_lookup _ _ _ hstored]
    rfl
  rw [happ]
  refine ⟨mapLookup_store_same _ _ _, rfl, ?_⟩
  intro k hk
  show mapLookup (mapStore (mapStore b.tests (b.findTest n) _) (b.findTest n) _) k = _
  rw [mapLookup_store_ne _ _ _ _ hk, mapLookup_store_ne _ _ _ _ hk]

/-- C17, with test A ended after test B was created. -/
theorem C17_endTest_retargets_output_witness :
    mapLookup (((NewReportBuilder.run [Event.createTest "A", Event.createTest "B"]).EndTest
        "A" "PASS" 3).AppendOutput "x").tests
        ((NewReportBuilder.run [Event.createTest "A", Event.createTest "B"]).findTest "A")
        = some ⟨(⟨"A", Result.Unset, 0, []⟩ : Test).Name, parseResult "PASS", 3,
            (⟨"A", Result.Unset, 0, []⟩ : Test).Output ++ ["x"]⟩ ∧
      (((NewReportBuilder.run [Event.createTest "A", Event.createTest "B"]).EndTest
        "A" "PASS" 3).AppendOutput "x").output
        = (NewReportBuilder.run [Event.createTest "A", Event.createTest "B"]).output ∧
      ∀ k, k ≠ (NewReportBuilder.run [Event.createTest "A", Event.createTest "B"]).findTest "A" →
        mapLookup (((NewReportBuilder.run [Event.createTest "A", Event.createTest "B"]).EndTest
          "A" "PASS" 3).AppendOutput "x").tests k
          = mapLookup (NewReportBuilder.run [Event.createTest "A", Event.createTest "B"]).tests k :=
  C17_endTest_retargets_output (NewReportBuilder.run [Event.createTest "A", Event.createTest "B"])
    "A" "PASS" "x" 3 ⟨"A", Result.Unset, 0, []⟩ (by decide) (by decide)

/-! ## C18 -/

/-- C18: in a reachable state CreateTest stores under an identifier that is at
least 1, and for a non-empty name n EndTest(n, r, d) leaves every test under such
an identifier whose name differs from n exactly as it was, keeps the name and the
output of every test, and leaves the benchmark store, the package-level output,
the next identifier and the flushed packages unchanged. -/
theorem C18_endTest_touches_only_match (b : ReportBuilder) (n r : String) (d : Int)
    (hb : Reachable b) (hn : n ≠ "") :
    1 ≤ b.nextId ∧
    (∀ k t, 1 ≤ k → mapLookup b.tests k = some t → t.Name ≠ n →
      mapLookup (b.EndTest n r d).tests k = some t) ∧
    (∀ k t, mapLookup b.tests k = some t →
      ∃ u, mapLookup (b.EndTest n r d).tests k = some u ∧ u.Name = t.Name ∧
        u.Output = t.Output) ∧
    (b.EndTest n r d).benchmarks = b.benchmarks ∧ (b.EndTest n r d).output = b.output ∧
    (b.EndTest n r d).nextId = b.nextId ∧ (b.EndTest n r d).packages = b.packages := by
  refine ⟨hb.nextId_pos, ?_, ?_, rfl, rfl, rfl, rfl⟩
  · intro k t hk hl hne
    have hkid : k ≠ b.findTest n := by
      rcases findTest_spec b n hn with hf | ⟨t0, hl0, ht0⟩
      · rw [hf]; omega
      · intro hEq
        rw [← hEq, hl] at hl0
        have : t = t0 := Option.some.inj hl0
        exact hne (this ▸ ht0)
    show mapLookup (mapStore b.tests (b.findTest n) _) k = _
    rw [mapLookup_store_ne _ _ _ _ hkid, hl]
  · intro k t hl
    by_cases hkid : k = b.findTest n
    · refine ⟨{ testAt b.tests (b.findTest n) with Result := parseResult r, Duration := d },
        ?_, ?_, ?_⟩
      · rw [hkid]
        exact mapLookup_store_same _ _ _
      · show (testAt b.tests (b.findTest n)).Name = t.Name
        rw [← hkid, testAt_of_lookup _ _ _ hl]
      · show (testAt b.tests (b.findTest n)).Output = t.Output
        rw [← hkid, testAt_of_lookup _ _ _ hl]
    · refine ⟨t, ?_, rfl, rfl⟩
      show mapLookup (mapStore b.tests (b.findTest n) _) k = _
      rw [mapLookup_store_ne _ _ _ _ hkid, hl]

/-- C18, at the state after CreateTest(A); CreateTest(B), ending B. -/
theorem C18_endTest_touches_only_match_witness :
    mapLookup ((NewReportBuilder.run [Event.createTest "A", Event.createTest "B"]).EndTest
      "B" "PASS" 3).tests 1 = some ⟨"A", Result.Unset, 0, []⟩ :=
  (C18_endTest_touches_only_match (NewReportBuilder.run [Event.createTest "A", Event.createTest "B"])
    "B" "PASS" 3 ⟨_, rfl⟩ (by decide)).2.1 1 ⟨"A", Result.Unset, 0, []⟩ (by decide) (by decide)
    (by decide)

/-! ## C19 -/

/-- C19, as stated, fails: after CreateTest(Dup); CreateTest(Dup);
EndTest(Dup, PASS, 1); EndTest(Dup, FAIL, 2) on a fresh builder the second-created
test carries the second end-event (Fail, 2) and the first-created test has zero
duration, so it is not true that the second-created test has duration 1 and the
first-created one duration 2. -/
theorem C19_second_endTest_hits_same_test :
    mapLookup ((((NewReportBuilder.CreateTest "Dup").CreateTest "Dup").EndTest "Dup" "PASS"
        1).EndTest "Dup" "FAIL" 2).tests 2 = some ⟨"Dup", Result.Fail, 2, []⟩ ∧
    mapLookup ((((NewReportBuilder.CreateTest "Dup").CreateTest "Dup").EndTest "Dup" "PASS"
        1).EndTest "Dup" "FAIL" 2).tests 1 = some ⟨"Dup", Result.Unset, 0, []⟩ ∧
    ¬ ((∃ t2, mapLookup ((((NewReportBuilder.CreateTest "Dup").CreateTest "Dup").EndTest "Dup"
          "PASS" 1).EndTest "Dup" "FAIL" 2).tests 2 = some t2 ∧
          t2.Result = parseResult "PASS" ∧ t2.Duration = 1) ∧
        (∃ t1, mapLookup ((((NewReportBuilder.CreateTest "Dup").CreateTest "Dup").EndTest "Dup"
          "PASS" 1).EndTest "Dup" "FAIL" 2).tests 1 = some t1 ∧
          t1.Result = parseResult "FAIL" ∧ t1.Duration = 2)) := by
  have h2 : mapLookup ((((NewReportBuilder.CreateTest "Dup").CreateTest "Dup").EndTest "Dup"
      "PASS" 1).EndTest "Dup" "FAIL" 2).tests 2 = some ⟨"Dup", Result.Fail, 2, []⟩ := by decide
  have h1 : mapLookup ((((NewReportBuilder.CreateTest "Dup").CreateTest "Dup").EndTest "Dup"
      "PASS" 1).EndTest "Dup" "FAIL" 2).tests 1 = some ⟨"Dup", Result.Unset, 0, []⟩ := by decide
  refine ⟨h2, h1, ?_⟩
  rintro ⟨⟨t2, hl, _, hd⟩, _⟩
  rw [h2] at hl
  have ht : (⟨"Dup", Result.Fail, 2, []⟩ : Test) = t2 := Option.some.inj hl
  rw [← ht] at hd
  exact absurd hd (by decide)

/-- C19, amended: EndTest resolves by name alone, whether or not the test already
ended. After CreateTest(n); CreateTest(n); EndTest(n, r1, d1); EndTest(n, r2, d2)
on a fresh window the second-created test has result parseResult(r2) and duration
d2, and the first-created test still has the unset result and zero duration. -/
theorem C19_endTest_resolves_by_name_only (b : ReportBuilder) (n r1 r2 : String)
    (d1 d2 : Int) (hb : FreshWindow b) :
    mapLookup ((((b.CreateTest n).CreateTest n).EndTest n r1 d1).EndTest n r2 d2).tests 2
        = some ⟨n, parseResult r2, d2, []⟩ ∧
      mapLookup ((((b.CreateTest n).CreateTest n).EndTest n r1 d1).EndTest n r2 d2).tests 1
        = some ⟨n, Result.Unset, 0, []⟩ := by
  obtain ⟨h1, h2, h3, h4, h5⟩ := hb
  cases b with
  | mk ps ts bs nx la out =>
    simp only at h1 h2 h3 h4 h5
    subst h1 h2 h3 h4 h5
    have hs : ((ReportBuilder.mk ps [] [] 1 0 []).CreateTest n).CreateTest n
        = ⟨ps, [(2, ⟨n, Result.Unset, 0, []⟩), (1, ⟨n, Result.Unset, 0, []⟩)], [], 3, 2, []⟩ := by
      simp [ReportBuilder.CreateTest, mapStore, mapErase]
    have hf : ∀ (r : Result) (dd : Int),
        (ReportBuilder.mk ps [(2, ⟨n, r, dd, []⟩), (1, ⟨n, Result.Unset, 0, []⟩)] [] 3 2
          []).findTest n = 2 := by
      intro r dd
      simp [ReportBuilder.findTest, lastIsTest, mapLookup]
    have he : ∀ (r : Result) (dd : Int) (r0 : String) (d0 : Int),
        (ReportBuilder.mk ps [(2, ⟨n, r, dd, []⟩), (1, ⟨n, Result.Unset, 0, []⟩)] [] 3 2
          []).EndTest n r0 d0
        = ⟨ps, [(2, ⟨n, parseResult r0, d0, []⟩), (1, ⟨n, Result.Unset, 0, []⟩)], [], 3, 2,
            []⟩ := by
      intro r dd r0 d0
      unfold ReportBuilder.EndTest
      rw [hf r dd]
      simp [testAt, mapStore, mapErase, mapLookup]
    rw [hs, he, he]
    constructor <;> simp [mapLookup]

/-- C19 amended, on the fresh builder. -/
theorem C19_endTest_resolves_by_name_only_witness :
    mapLookup ((((NewReportBuilder.CreateTest "Dup").CreateTest "Dup").EndTest "Dup" "PASS"
        1).EndTest "Dup" "SKIP" 2).tests 2 = some ⟨"Dup", parseResult "SKIP", 2, []⟩ ∧
      mapLookup ((((NewReportBuilder.CreateTest "Dup").CreateTest "Dup").EndTest "Dup" "PASS"
        1).EndTest "Dup" "SKIP" 2).tests 1 = some ⟨"Dup", Result.Unset, 0, []⟩ :=
  C19_endTest_resolves_by_name_only NewReportBuilder "Dup" "PASS" "SKIP" 1 2 (by decide)

/-! ## C20 -/

/-- C20: for all call sequences es1 and es2 and every p and d, the report built by
es1; CreatePackage(p, d); es2; Build() from a fresh builder is the report of
es1; CreatePackage(p, d); Build() followed by the report of es2; Build() from a
fresh builder. -/
theorem C20_windows_independent (es1 es2 : List Event) (p : String) (d : Int) :
    ((((NewReportBuilder.run es1).CreatePackage p d).run es2).Build).1
      = ⟨(((NewReportBuilder.run es1).CreatePackage p d).Build).1.Packages ++
          ((NewReportBuilder.run es2).Build).1.Packages⟩ := by
  have hfresh : FreshWindow ((NewReportBuilder.run es1).CreatePackage p d) :=
    ⟨rfl, rfl, rfl, rfl, rfl⟩
  have hfirst : (((NewReportBuilder.run es1).CreatePackage p d).Build).1.Packages
      = ((NewReportBuilder.run es1).CreatePackage p d).packages := by
    show (((NewReportBuilder.run es1).CreatePackage p d).flush).packages = _
    have h0 : mapLen ((NewReportBuilder.run es1).CreatePackage p d).tests = 0 := rfl
    rw [flush_of_tests_empty _ h0]
  have hrun : ((NewReportBuilder.run es1).CreatePackage p d).run es2
      = withFlushed ((NewReportBuilder.run es1).CreatePackage p d).packages
          (NewReportBuilder.run es2) := by
    conv => lhs; rw [fresh_eq_withFlushed _ hfresh]
    exact withFlushed_run _ es2 NewReportBuilder
  rw [hfirst, hrun]
  show (⟨((withFlushed _ (NewReportBuilder.run es2)).flush).packages⟩ : Report) = _
  rw [flush_withFlushed]
  rfl

end Gtr
